import Mathlib

/-!
Verification development for the listings load pipeline (cleaner.py + loader.py).

The pipeline stages a cleaned CSV batch, upserts dimension tables
(transaction type, item type, item subtype, city, zipcode, location),
upserts the listing master and description tables, and applies an SCD-2
close/insert step to the `listing_version` history table.

The shallow embedding below translates the SQL expressions and statements of
loader.py (and the business-key deduplication step of cleaner.py) into
executable Lean functions.  Timestamps are modelled as natural numbers,
SQL NULL as `Option.none`, numerics as rationals, and tables as lists of rows.
Two points of PostgreSQL semantics are modelled explicitly:

* a single `INSERT ... SELECT ... WHERE NOT EXISTS (...)` statement evaluates
  its `NOT EXISTS` subquery against the snapshot taken at statement start, so
  rows inserted by the statement itself are not visible to its own guard;
* an `UPDATE ... FROM` where several source rows match one target row applies
  an arbitrary single match; the model deterministically picks the first one.
-/

namespace ListingLoad

set_option synthInstance.maxHeartbeats 1000000

/-- PostgreSQL `btrim(s)`: strip space characters from both ends. -/
def btrim (s : String) : String :=
  String.mk (((s.data.dropWhile (fun c => c = ' ')).reverse.dropWhile (fun c => c = ' ')).reverse)

/-- The digit characters of `s`, in order: SQL `regexp_replace(s, '\D', '', 'g')`. -/
def digitsOf (s : String) : String :=
  String.mk (s.data.filter Char.isDigit)

/-- Numeric value of a digit string (most significant first). -/
def natOfDigits (l : List Char) : Nat :=
  l.foldl (fun n c => 10 * n + (c.toNat - 48)) 0

/-- PostgreSQL `lpad(s, 5, '0')`: left-pad with zeros to width 5 (truncating a longer string). -/
def lpad5 (s : String) : String :=
  if 5 ≤ s.length then String.mk (s.data.take 5)
  else String.mk (List.replicate (5 - s.length) '0') ++ s

/-- loader.py `norm_zip_5`: NULL on blank input, otherwise strip non-digits and
zero-pad iff the remaining digit run matches `^\d{1,5}$` (the stripped string is
all digits by construction, so the regex test reduces to the length bounds). -/
def norm_zip_5 (s : String) : Option String :=
  if btrim s = "" then none
  else
    let d := digitsOf s
    if 1 ≤ d.length ∧ d.length ≤ 5 then some (lpad5 d) else none

/-- Modelled from the spec: the zip rule as worded by the spec and claim C6 —
keep the extracted digits when they form a 5-digit run, zero-pad a 4-digit run,
and unknown otherwise.  Stated only for comparison with `norm_zip_5`. -/
def claimedZipRule (s : String) : Option String :=
  if btrim s = "" then none
  else
    let d := digitsOf s
    if d.length = 5 then some d
    else if d.length = 4 then some (lpad5 d) else none

/-- ASCII lowercasing (SQL `lower`, python `.lower()`), character by character. -/
def lowerStr (s : String) : String :=
  String.mk (s.data.map Char.toLower)

/-- Characters kept by `regexp_replace(s, '[^0-9\.-]', '', 'g')`. -/
def keepNumChar (c : Char) : Bool :=
  c.isDigit || c = '.' || c = '-'

/-- The unsigned part of the numeric regex `\d+(\.\d+)?`. -/
def matchNumCore (l : List Char) : Bool :=
  let d := l.takeWhile Char.isDigit
  let r := l.drop d.length
  decide (d ≠ []) &&
    (match r with
     | [] => true
     | '.' :: r2 =>
         let f := r2.takeWhile Char.isDigit
         decide (f ≠ []) && decide (r2.drop f.length = [])
     | _ => false)

/-- The numeric regex `^-?\d+(\.\d+)?$`. -/
def matchNum (l : List Char) : Bool :=
  match l with
  | '-' :: rest => matchNumCore rest
  | _ => matchNumCore l

/-- Rational value of an unsigned decimal numeral `\d+(\.\d+)?`. -/
def numValCore (l : List Char) : ℚ :=
  let d := l.takeWhile Char.isDigit
  let r := l.drop d.length
  (natOfDigits d : ℚ) +
    (match r with
     | '.' :: r2 => (natOfDigits (r2.takeWhile Char.isDigit) : ℚ) /
         ((10 : ℚ) ^ (r2.takeWhile Char.isDigit).length)
     | _ => 0)

/-- Rational value of a signed decimal numeral. -/
def numVal (l : List Char) : ℚ :=
  match l with
  | '-' :: rest => -(numValCore rest)
  | _ => numValCore l

/-- Shared core of the tolerant numeric parsers: NULL on blank, strip characters
outside `[0-9.-]`, NULL unless the remainder matches `^-?\d+(\.\d+)?$`. -/
def parseSigned (s : String) : Option ℚ :=
  if btrim s = "" then none
  else
    let l := s.data.filter keepNumChar
    if matchNum l then some (numVal l) else none

/-- loader.py `num_nonneg`: tolerant non-negative decimal, else NULL. -/
def num_nonneg (s : String) : Option ℚ :=
  (parseSigned s).bind (fun q => if 0 ≤ q then some q else none)

/-- PostgreSQL `round(x::numeric)` (half away from zero) as an integer. -/
def pgRound (q : ℚ) : ℤ :=
  if 0 ≤ q then ⌊q + (1 : ℚ) / 2⌋ else -⌊(1 : ℚ) / 2 - q⌋

/-- PostgreSQL `::smallint`: the cast raises `smallint out of range` outside
`[-32768, 32767]`, aborting the whole statement. -/
def castSmallint (n : ℤ) : Except Unit ℤ :=
  if -32768 ≤ n ∧ n ≤ 32767 then Except.ok n else Except.error ()

/-- PostgreSQL `::int`: the cast raises `integer out of range` outside the
int4 range, aborting the whole statement. -/
def castInt4 (n : ℤ) : Except Unit ℤ :=
  if -2147483648 ≤ n ∧ n ≤ 2147483647 then Except.ok n else Except.error ()

/-- loader.py `smallint_nonneg`: tolerant integer parse, rounded, NULL if
negative; the `round(...)::smallint` in the THEN branch raises (and aborts the
statement) when the rounded value exceeds the smallint range. -/
def smallint_nonneg (s : String) : Except Unit (Option ℤ) :=
  match parseSigned s with
  | none => Except.ok none
  | some q =>
      if 0 ≤ pgRound q then (castSmallint (pgRound q)).map some else Except.ok none

/-- loader.py `floor_bounded`: tolerant integer parse, rounded, NULL outside
`[lo, hi]`; the `round(...)::int` inside the guard raises (and aborts the
statement) when the rounded value falls outside the int4 range, and the
`::smallint` of the THEN branch raises outside the smallint range. -/
def floor_bounded (lo hi : ℤ) (s : String) : Except Unit (Option ℤ) :=
  match parseSigned s with
  | none => Except.ok none
  | some q =>
      (castInt4 (pgRound q)).bind (fun n =>
        if lo ≤ n ∧ n ≤ hi then (castSmallint n).map some else Except.ok none)

/-- loader.py `year_1800_2100`: digits-only parse, NULL outside `[1800, 2100]`;
the `::int` inside the guard raises (and aborts the statement) for a digit run
beyond the int4 range, and the `::smallint` of the THEN branch is safe once the
guard passed. -/
def year_1800_2100 (s : String) : Except Unit (Option ℤ) :=
  if btrim s = "" then Except.ok none
  else
    let d := digitsOf s
    if 1 ≤ d.length then
      (castInt4 (natOfDigits d.data : ℤ)).bind (fun n =>
        if 1800 ≤ n ∧ n ≤ 2100 then (castSmallint n).map some else Except.ok none)
    else Except.ok none

/-- The value a cast expression stores when it did not abort; statement aborts
are accounted at statement level (`incomingAborts`, `listingAborts`, `runLoadE`). -/
def exprVal (e : Except Unit (Option ℤ)) : Option ℤ :=
  match e with
  | Except.ok v => v
  | Except.error _ => none

/-- Whether a cast expression raises and aborts its statement. -/
def exprAborts (e : Except Unit (Option ℤ)) : Bool :=
  match e with
  | Except.ok _ => false
  | Except.error _ => true

/-- loader.py `bool_or_null`: recognised truthy/falsy token sets (on the raw,
untrimmed value, as in the SQL), else NULL. -/
def bool_or_null (s : String) : Option Bool :=
  if btrim s = "" then none
  else if lowerStr s ∈ ["true", "t", "1", "yes", "y", "oui"] then some true
  else if lowerStr s ∈ ["false", "f", "0", "no", "n", "non"] then some false
  else none

/-- One staged batch row (`stg_clean_csv`): raw text fields; the two temporal
markers are carried as already-parsed optional instants (blank ⇒ `none`). -/
structure Row where
  listing_id : String
  transaction_type : String
  item_type : String
  item_subtype : String
  start_date : Option Nat
  change_date : Option Nat
  price : String
  area : String
  site_area : String
  floor : String
  room_count : String
  balcony_count : String
  terrace_count : String
  terrace_area : String
  build_year : String
  is_new_construction : String
  has_passenger_lift : String
  has_cellar : String
  is_furnished : String
  city : String
  zipcode : String
  description_fr : String
deriving DecidableEq, Repr

/-- The historized attribute tuple of a listing version. -/
structure Fact where
  price : Option ℚ
  area : Option ℚ
  site_area : Option ℚ
  floor : Option ℤ
  room_count : Option ℤ
  balcony_count : Option ℤ
  terrace_count : Option ℤ
  terrace_area : Option ℚ
deriving DecidableEq, Repr

/-- Field-by-field `IS DISTINCT FROM` disjunction from the `stg_delta` query. -/
def factDistinct (a b : Fact) : Bool :=
  decide (a.price ≠ b.price) || decide (a.area ≠ b.area) ||
  decide (a.site_area ≠ b.site_area) || decide (a.floor ≠ b.floor) ||
  decide (a.room_count ≠ b.room_count) || decide (a.balcony_count ≠ b.balcony_count) ||
  decide (a.terrace_count ≠ b.terrace_count) || decide (a.terrace_area ≠ b.terrace_area)

/-- A `listing_version` row.  Listings are identified by their (unique) external
business key, a faithful renaming of the surrogate `listing.id`. -/
structure Version where
  listing_id : String
  valid_from : Nat
  valid_to : Option Nat
  fact : Fact
  source_change_ts : Option Nat
deriving DecidableEq, Repr

/-- A `stg_listing_incoming` row. -/
structure Incoming where
  listing_id : String
  valid_from : Nat
  source_change_ts : Option Nat
  fact : Fact
deriving DecidableEq, Repr

/-- A `listing` master row (dimension references carried by natural code,
a faithful renaming of the surrogate ids, which are in bijection with codes). -/
structure Listing where
  ext_id : String
  tt_code : String
  it_code : String
  ist_code : String
  city : String
  zip : String
  build_year : Option ℤ
  is_new : Option Bool
  has_lift : Option Bool
  has_cellar : Option Bool
  is_furn : Option Bool
deriving DecidableEq, Repr

/-- The mutable store owned by the loader. -/
@[ext]
structure LState where
  tts : List String
  its : List String
  ists : List (String × String)
  cities : List String
  zips : List String
  locs : List (String × String)
  listings : List Listing
  descs : List (String × String)
  versions : List Version
deriving DecidableEq, Repr

/-- `INSERT ... SELECT DISTINCT ... ON CONFLICT DO NOTHING` over a code list. -/
def insertNew {α : Type} [DecidableEq α] (xs : List α) (t : List α) : List α :=
  t ++ (xs.dedup.filter (fun x => decide (x ∉ t)))

/-- `INSERT ... ON CONFLICT (key) DO UPDATE`: overwrite matched rows in place,
append unmatched ones (set-oriented, as a single SQL statement). -/
def upsertByKey {α κ : Type} [DecidableEq κ] (key : α → κ) (rows t : List α) : List α :=
  t.map (fun old => ((rows.find? (fun r => decide (key r = key old))).getD old))
  ++ rows.filter (fun r => decide (∀ old ∈ t, key old ≠ key r))

/-- Replacement applied to a kept row when a new row `r` arrives: the kept row
of `r`'s key is replaced iff `better kept r`; rows of other keys are unchanged. -/
def kbRepl {α κ : Type} [DecidableEq κ] (key : α → κ) (better : α → α → Bool)
    (r e : α) : α :=
  if decide (key e = key r) then (if better e r then r else e) else e

/-- One step of the per-key best-row selection: replace the kept row of `r`'s
key iff `better kept r`, append `r` when its key is new. -/
def kbStep {α κ : Type} [DecidableEq κ] (key : α → κ) (better : α → α → Bool)
    (acc : List α) (r : α) : List α :=
  if acc.any (fun e => decide (key e = key r)) then acc.map (kbRepl key better r)
  else acc ++ [r]

/-- Per-key best-row selection: a fold that keeps, for every key, the row
preferred by `better` (a later row replaces the kept one iff `better kept new`). -/
def keepBest {α κ : Type} [DecidableEq κ] (key : α → κ) (better : α → α → Bool)
    (l : List α) : List α :=
  l.foldl (kbStep key better) []

/-- The number of rows of `l` whose key is `k`. -/
def countKey {α κ : Type} [DecidableEq κ] (key : α → κ) (l : List α) (k : κ) : Nat :=
  (l.filter (fun e => decide (key e = k))).length

/-- The declared set of required logical columns (loader.py `EXPECTED`). -/
def EXPECTED : List String :=
  ["listing_id", "transaction_type", "item_type", "item_subtype",
   "start_date", "change_date",
   "price", "area", "site_area", "floor", "room_count", "balcony_count",
   "terrace_count", "terrace_area",
   "build_year", "is_new_construction", "has_passenger_lift", "has_cellar", "is_furnished",
   "city", "zipcode", "description_fr"]

/-- loader.py `assert_expected_headers`: the expected logical columns absent from
the batch header, compared against the lowercased physical column names. -/
def missing_headers (cols : List String) : List String :=
  EXPECTED.filter (fun c => decide (c ∉ cols.map lowerStr))

/-- The distinct-source transaction-type codes of a batch. -/
def ttCodes (batch : List Row) : List String :=
  (batch.map (fun r => btrim r.transaction_type)).filter (fun c => decide (c ≠ ""))

/-- The distinct-source item-type codes of a batch. -/
def itCodes (batch : List Row) : List String :=
  (batch.map (fun r => btrim r.item_type)).filter (fun c => decide (c ≠ ""))

/-- The (parent type, subtype) code pairs of a batch that resolve in `its`. -/
def istPairs (batch : List Row) (its : List String) : List (String × String) :=
  (batch.map (fun r => (btrim r.item_type, btrim r.item_subtype))).filter
    (fun p => decide (p.2 ≠ "" ∧ p.1 ∈ its))

/-- loader.py `upsert_dimensions`: distinct non-empty trimmed codes, conflict-ignoring;
a subtype is inserted only when its parent item-type code resolves. -/
def upsert_dimensions (batch : List Row) (s : LState) : LState :=
  { s with tts := insertNew (ttCodes batch) s.tts
           its := insertNew (itCodes batch) s.its
           ists := insertNew (istPairs batch (insertNew (itCodes batch) s.its)) s.ists }

/-- The city names of a batch. -/
def cityCodes (batch : List Row) : List String :=
  (batch.map (fun r => btrim r.city)).filter (fun c => decide (c ≠ ""))

/-- The normalized zipcodes of a batch. -/
def zipCodes (batch : List Row) : List String :=
  batch.filterMap (fun r => norm_zip_5 r.zipcode)

/-- The (city, zip) pairs of a batch that resolve in both dimension tables. -/
def locPairs (batch : List Row) (cities zips : List String) : List (String × String) :=
  batch.filterMap (fun r =>
    match norm_zip_5 r.zipcode with
    | some z => if btrim r.city ∈ cities ∧ z ∈ zips then some (btrim r.city, z) else none
    | none => none)

/-- loader.py `upsert_cities_zipcodes_locations`: cities by name, zipcodes via
`norm_zip_5`, locations as the (city, zip) pairs that resolve in both tables. -/
def upsert_cities_zipcodes_locations (batch : List Row) (s : LState) : LState :=
  { s with cities := insertNew (cityCodes batch) s.cities
           zips := insertNew (zipCodes batch) s.zips
           locs := insertNew
             (locPairs batch (insertNew (cityCodes batch) s.cities)
               (insertNew (zipCodes batch) s.zips)) s.locs }

/-- Dimension resolution for one batch row (the joins of the listing upsert):
`none` when any code fails to resolve.  The external key is required non-empty;
modelled from the spec for the schema not under src: the business key is
declared never-null, so a blank key cannot be upserted. -/
def resolveRow (s : LState) (r : Row) : Option Listing :=
  if btrim r.listing_id ≠ "" ∧
     btrim r.transaction_type ∈ s.tts ∧
     btrim r.item_type ∈ s.its ∧
     (btrim r.item_type, btrim r.item_subtype) ∈ s.ists ∧
     btrim r.city ∈ s.cities ∧
     (∃ z, norm_zip_5 r.zipcode = some z ∧ z ∈ s.zips ∧ (btrim r.city, z) ∈ s.locs)
  then some
    { ext_id := btrim r.listing_id
      tt_code := btrim r.transaction_type
      it_code := btrim r.item_type
      ist_code := btrim r.item_subtype
      city := btrim r.city
      zip := (norm_zip_5 r.zipcode).getD ""
      build_year := exprVal (year_1800_2100 r.build_year)
      is_new := bool_or_null r.is_new_construction
      has_lift := bool_or_null r.has_passenger_lift
      has_cellar := bool_or_null r.has_cellar
      is_furn := bool_or_null r.is_furnished }
  else none

/-- loader.py `upsert_listings`: insert-or-overwrite the master row for every
resolvable batch row (unresolved rows are silently excluded). -/
def upsert_listings (batch : List Row) (s : LState) : LState :=
  { s with listings := upsertByKey Listing.ext_id (batch.filterMap (resolveRow s)) s.listings }

/-- `better` relation of the description pick: a later candidate replaces the
kept one iff strictly longer (so ties keep the first-seen candidate). -/
def longerDesc (e r : String × String) : Bool :=
  decide (e.2.length < r.2.length)

/-- The `src` CTE of the description upsert: (trimmed key, trimmed non-empty
body) pairs of the batch. -/
def descSrc (batch : List Row) : List (String × String) :=
  batch.filterMap (fun r =>
    if btrim r.description_fr ≠ "" ∧ btrim r.listing_id ≠ ""
    then some (btrim r.listing_id, btrim r.description_fr) else none)

/-- The `pick` CTE: the longest body per key (`ROW_NUMBER` ordered by length
descending; ties keep the first-seen candidate). -/
def descPick (batch : List Row) : List (String × String) :=
  keepBest Prod.fst longerDesc (descSrc batch)

/-- loader.py `upsert_descriptions`: keep the longest non-empty trimmed
description per business key, join against the listing table, insert-or-replace. -/
def descJoined (batch : List Row) (s : LState) : List (String × String) :=
  (descPick batch).filter (fun p => decide (∃ l ∈ s.listings, l.ext_id = p.1))

def upsert_descriptions (batch : List Row) (s : LState) : LState :=
  { s with descs := upsertByKey Prod.fst (descJoined batch s) s.descs }

/-- Effective timestamp `COALESCE(change_ts, start_ts, NOW())`. -/
def effectiveFrom (r : Row) (now : Nat) : Nat :=
  match r.change_date with
  | some t => t
  | none => r.start_date.getD now

/-- The typed incoming fact tuple of one row. -/
def mkFact (r : Row) : Fact :=
  { price := num_nonneg r.price
    area := num_nonneg r.area
    site_area := num_nonneg r.site_area
    floor := exprVal (floor_bounded (-5) 300 r.floor)
    room_count := exprVal (smallint_nonneg r.room_count)
    balcony_count := exprVal (smallint_nonneg r.balcony_count)
    terrace_count := exprVal (smallint_nonneg r.terrace_count)
    terrace_area := num_nonneg r.terrace_area }

/-- The incoming fact computed from one staged row. -/
def incomingOf (r : Row) (now : Nat) : Incoming :=
  { listing_id := btrim r.listing_id
    valid_from := effectiveFrom r now
    source_change_ts := r.change_date
    fact := mkFact r }

/-- `stg_listing_incoming`: the staged batch joined against the listing table
on the trimmed external key (one output row per matching listing row). -/
def build_incoming (batch : List Row) (now : Nat) (ls : List Listing) : List Incoming :=
  batch.flatMap (fun r =>
    if btrim r.listing_id = "" then []
    else (ls.filter (fun l => decide (l.ext_id = btrim r.listing_id))).map
      (fun _ => incomingOf r now))

/-- The currently open versions of listing `L`. -/
def opensFor (db : List Version) (L : String) : List Version :=
  db.filter (fun v => decide (v.listing_id = L ∧ v.valid_to = none))

/-- `stg_delta`: incoming facts LEFT-JOINed to the open version, kept when no
open version exists or some historized field `IS DISTINCT FROM` the open one
(one output row per joined row, as in the SQL). -/
def stg_delta (inc : List Incoming) (db : List Version) : List Incoming :=
  inc.flatMap (fun i =>
    if (opensFor db i.listing_id).isEmpty then [i]
    else ((opensFor db i.listing_id).filter (fun c => factDistinct c.fact i.fact)).map
      (fun _ => i))

/-- The join-and-guard condition of the close `UPDATE`:
`t.listing_id = d.listing_id AND t.valid_from <= d.valid_from`. -/
def closeMatch (t : Version) (d : Incoming) : Bool :=
  decide (d.listing_id = t.listing_id ∧ t.valid_from ≤ d.valid_from)

/-- Effect of the close `UPDATE` on one `listing_version` row: an open row is
closed at the `valid_from` of a matching delta whose guard
`t.valid_from <= d.valid_from` holds (first match; see header note). -/
def closeOne (delta : List Incoming) (t : Version) : Version :=
  if t.valid_to = none then
    match delta.find? (closeMatch t) with
    | some d => { t with valid_to := some d.valid_from }
    | none => t
  else t

/-- The close `UPDATE` over the whole table. -/
def closeStep (delta : List Incoming) (db : List Version) : List Version :=
  db.map (closeOne delta)

/-- The open version row opened for a delta. -/
def mkOpenV (d : Incoming) : Version :=
  { listing_id := d.listing_id
    valid_from := d.valid_from
    valid_to := none
    fact := d.fact
    source_change_ts := d.source_change_ts }

/-- The rows added by the guarded `INSERT`: deltas whose listing has no open
version in the pre-insert snapshot `db1` (rows inserted by the same statement
are not visible to the `NOT EXISTS` guard; see header note). -/
def insertedRows (delta : List Incoming) (db1 : List Version) : List Version :=
  (delta.filter (fun d =>
    !(db1.any (fun t => decide (t.listing_id = d.listing_id ∧ t.valid_to = none))))).map mkOpenV

/-- The SCD-2 apply step of `build_incoming_and_apply_scd2`: when any delta
exists, close then insert; otherwise no write. -/
def applySCD2 (inc : List Incoming) (db : List Version) : List Version :=
  if (stg_delta inc db).isEmpty then db
  else closeStep (stg_delta inc db) db
    ++ insertedRows (stg_delta inc db) (closeStep (stg_delta inc db) db)

/-- loader.py `run_pipeline` body after staging: dimensions, locations, listing
master, descriptions, then the SCD-2 delta engine, in source order. -/
def runLoad (batch : List Row) (now : Nat) (s : LState) : LState :=
  let s1 := upsert_dimensions batch s
  let s2 := upsert_cities_zipcodes_locations batch s1
  let s3 := upsert_listings batch s2
  let s4 := upsert_descriptions batch s3
  { s4 with versions := applySCD2 (build_incoming batch now s4.listings) s4.versions }

/-- loader.py `run_pipeline`: the header contract is checked first and a missing
logical column raises before any table is touched. -/
def run_pipeline (cols : List String) (batch : List Row) (now : Nat) (s : LState) :
    Except (List String) LState :=
  if missing_headers cols = [] then Except.ok (runLoad batch now s)
  else Except.error (missing_headers cols)

/-- Statement-abort test for the `stg_listing_incoming` CTAS: its SELECT list
evaluates the floor and count cast expressions for every staged row that joins
the listing master on the trimmed key; any raising cast aborts the statement. -/
def incomingAborts (batch : List Row) (ls : List Listing) : Bool :=
  batch.any (fun r =>
    decide (btrim r.listing_id ≠ "") &&
    decide (∃ l ∈ ls, l.ext_id = btrim r.listing_id) &&
    (exprAborts (floor_bounded (-5) 300 r.floor) ||
     exprAborts (smallint_nonneg r.room_count) ||
     exprAborts (smallint_nonneg r.balcony_count) ||
     exprAborts (smallint_nonneg r.terrace_count)))

/-- Statement-abort test for the listing upsert: its SELECT list evaluates
`year_1800_2100` for every staged row whose dimension joins all resolve. -/
def listingAborts (batch : List Row) (s : LState) : Bool :=
  batch.any (fun r =>
    (resolveRow s r).isSome && exprAborts (year_1800_2100 r.build_year))

/-- loader.py `run_pipeline` body with the statement aborts of the integer
casts explicit: the whole load runs in a single transaction
(`with conn.begin()`), so a raising cast in the listing upsert or in the
`stg_listing_incoming` CTAS rolls back every stage and no table changes. -/
def runLoadE (batch : List Row) (now : Nat) (s : LState) : Except Unit LState :=
  if listingAborts batch
      (upsert_cities_zipcodes_locations batch (upsert_dimensions batch s))
  then Except.error ()
  else if incomingAborts batch
      (upsert_listings batch (upsert_cities_zipcodes_locations batch
        (upsert_dimensions batch s))).listings
  then Except.error ()
  else Except.ok (runLoad batch now s)

/-- Folding a sequence of incoming batches through the delta engine from an
empty history. -/
def applyAll (batches : List (List Incoming)) : List Version :=
  batches.foldl (fun db b => applySCD2 b db) []

/-- pandas ascending order on an optional instant with `NaT` sorted last
(`na_position` default), so `none` is greatest. -/
def optLE (a b : Option Nat) : Bool :=
  match b with
  | none => true
  | some tb =>
    match a with
    | none => false
    | some ta => decide (ta ≤ tb)

/-- The (change_date, start_date) sort key of cleaner.py `DeduplicateBusinessKey`. -/
def dateKey (r : Row) : Option Nat × Option Nat := (r.change_date, r.start_date)

/-- Lexicographic comparison of two date keys. -/
def dkLE (a b : Option Nat × Option Nat) : Bool :=
  (optLE a.1 b.1 && !(optLE b.1 a.1)) || (optLE a.1 b.1 && optLE b.1 a.1 && optLE a.2 b.2)

/-- cleaner.py `DeduplicateBusinessKey`: keep, per raw business key, a row whose
(change_date, start_date) key is greatest (a later batch row replaces the kept
one when its key is ≥, realising sort-ascending + `keep="last"`). -/
def deduplicate_business_key (rows : List Row) : List Row :=
  keepBest Row.listing_id (fun e r => dkLE (dateKey e) (dateKey r)) rows

/-- Number of open versions of listing `L`. -/
def countOpen (db : List Version) (L : String) : Nat :=
  (opensFor db L).length

/-- Current-version uniqueness: at most one open version per listing. -/
def atMostOneOpen (db : List Version) : Prop :=
  ∀ v ∈ db, countOpen db v.listing_id ≤ 1

/-- The right endpoint of a version interval, `none` read as +∞. -/
def toE (o : Option Nat) : WithTop Nat :=
  match o with
  | none => ⊤
  | some t => (t : WithTop Nat)

/-- No negative-length interval: `valid_from ≤ valid_to`. -/
def boundsOK (db : List Version) : Prop :=
  ∀ v ∈ db, (v.valid_from : WithTop Nat) ≤ toE v.valid_to

/-- Two versions of the same listing occupy disjoint half-open intervals. -/
def vDisj (v w : Version) : Prop :=
  v.listing_id = w.listing_id →
    (toE v.valid_to ≤ (w.valid_from : WithTop Nat) ∨ toE w.valid_to ≤ (v.valid_from : WithTop Nat))

/-- Every closed version of a listing ends no later than the open one starts. -/
def openLatest (db : List Version) : Prop :=
  ∀ v ∈ db, ∀ w ∈ db, v.valid_to = none → w.listing_id = v.listing_id →
    w.valid_to ≠ none → toE w.valid_to ≤ (v.valid_from : WithTop Nat)

/-- A listing with any version has an open one. -/
def openIfAny (db : List Version) : Prop :=
  ∀ v ∈ db, ∃ o ∈ db, o.listing_id = v.listing_id ∧ o.valid_to = none

/-- The inductive well-formedness invariant of the version table. -/
def INVdb (db : List Version) : Prop :=
  atMostOneOpen db ∧ boundsOK db ∧ List.Pairwise vDisj db ∧ openLatest db ∧ openIfAny db

/-- The versions of one listing. -/
def versionsOf (db : List Version) (L : String) : List Version :=
  db.filter (fun v => decide (v.listing_id = L))

instance (db : List Version) : Decidable (atMostOneOpen db) := by
  unfold atMostOneOpen; infer_instance

instance (db : List Version) : Decidable (boundsOK db) := by
  unfold boundsOK; infer_instance

instance : DecidableRel vDisj := by
  intro v w; unfold vDisj; infer_instance

instance (db : List Version) : Decidable (openLatest db) := by
  unfold openLatest; infer_instance

instance (db : List Version) : Decidable (openIfAny db) := by
  unfold openIfAny; infer_instance

instance (db : List Version) : Decidable (INVdb db) := by
  unfold INVdb; infer_instance

/-- The all-empty store. -/
def emptyState : LState :=
  { tts := [], its := [], ists := [], cities := [], zips := [], locs := [],
    listings := [], descs := [], versions := [] }

/-- A batch row carrying only a zipcode, used to exercise the zip path. -/
def zipOnlyRow (z : String) : Row :=
  { listing_id := "", transaction_type := "", item_type := "", item_subtype := "",
    start_date := none, change_date := none,
    price := "", area := "", site_area := "", floor := "", room_count := "",
    balcony_count := "", terrace_count := "", terrace_area := "",
    build_year := "", is_new_construction := "", has_passenger_lift := "",
    has_cellar := "", is_furnished := "", city := "", zipcode := z,
    description_fr := "" }

/-- A listing row with blank codes, used to build concrete instances. -/
def blankListing : Listing :=
  { ext_id := "", tt_code := "", it_code := "", ist_code := "", city := "", zip := "",
    build_year := none, is_new := none, has_lift := none, has_cellar := none, is_furn := none }

/-- A staged row whose dimension codes all resolve, whose price is malformed,
and whose build-year digit run exceeds the int4 range. -/
def cexRow : Row :=
  { zipOnlyRow "75001" with
      listing_id := "B"
      transaction_type := "S"
      item_type := "AP"
      item_subtype := "APT"
      city := "P"
      build_year := "99999999999"
      price := "abc" }

/-- Whether a load attempt aborted (its transaction rolled back). -/
def loadAborted (e : Except Unit LState) : Bool :=
  match e with
  | Except.ok _ => false
  | Except.error _ => true

lemma mem_insertNew {α : Type} [DecidableEq α] {x : α} {xs t : List α} (hx : x ∈ xs) :
    x ∈ insertNew xs t := by
  unfold insertNew
  by_cases ht : x ∈ t
  · exact List.mem_append_left _ ht
  · refine List.mem_append_right _ ?_
    simp only [List.mem_filter, List.mem_dedup, decide_eq_true_eq]
    exact ⟨hx, ht⟩

lemma insertNew_of_forall_mem {α : Type} [DecidableEq α] {xs t : List α}
    (h : ∀ x ∈ xs, x ∈ t) : insertNew xs t = t := by
  unfold insertNew
  have : xs.dedup.filter (fun x => decide (x ∉ t)) = [] := by
    refine List.filter_eq_nil_iff.2 ?_
    intro a ha
    simp only [decide_eq_true_eq, Decidable.not_not]
    exact h a (List.mem_dedup.1 ha)
  rw [this, List.append_nil]

lemma norm_zip_5_of_blank {s : String} (h : btrim s = "") : norm_zip_5 s = none := by
  simp [norm_zip_5, h]

lemma norm_zip_5_of_len {s : String} (h : btrim s ≠ "")
    (h1 : 1 ≤ (digitsOf s).length) (h5 : (digitsOf s).length ≤ 5) :
    norm_zip_5 s = some (lpad5 (digitsOf s)) := by
  simp [norm_zip_5, h, h1, h5]

lemma lpad5_of_len5 {s : String} (h : s.length = 5) : lpad5 s = s := by
  unfold lpad5
  rw [if_pos (le_of_eq h.symm)]
  have h2 : s.data.take 5 = s.data := List.take_of_length_le (le_of_eq h)
  rw [h2]

/-- C6 (counterexample).  The claim says a zipcode whose extracted digits form
neither a 5-digit nor a 4-digit run is unknown and creates no zipcode dimension
row; the loader zero-pads any 1–5 digit run, so input "123" stores "00123". -/
theorem zip_rule_counterexample :
    norm_zip_5 "123" = some "00123" ∧ claimedZipRule "123" = none ∧
    "00123" ∈ (upsert_cities_zipcodes_locations [zipOnlyRow "123"] emptyState).zips := by
  decide

/-- C6 (amended).  For every zipcode string in the batch, the stored dimension
code is the extracted digit run zero-padded to 5 characters whenever that run
has length 1 to 5 (kept as-is at length 5), and unknown — with no zipcode or
location dimension row created from it — when the input is blank, has no digits,
or has more than 5 digits; "7501" stores "07501" and "ABCDE" stores nothing. -/
theorem zip_rule_amended :
    (∀ s, btrim s = "" → norm_zip_5 s = none) ∧
    (∀ s, btrim s ≠ "" → 1 ≤ (digitsOf s).length → (digitsOf s).length ≤ 5 →
       norm_zip_5 s = some (lpad5 (digitsOf s))) ∧
    (∀ s, (digitsOf s).length = 5 → lpad5 (digitsOf s) = digitsOf s) ∧
    (∀ s, btrim s ≠ "" → ((digitsOf s).length = 0 ∨ 5 < (digitsOf s).length) →
       norm_zip_5 s = none) ∧
    norm_zip_5 "7501" = some "07501" ∧
    norm_zip_5 "ABCDE" = none ∧
    (∀ batch (s : LState) (r : Row) z, r ∈ batch → norm_zip_5 r.zipcode = some z →
       z ∈ (upsert_cities_zipcodes_locations batch s).zips) ∧
    (∀ batch (s : LState), (∀ r ∈ batch, norm_zip_5 r.zipcode = none) →
       (upsert_cities_zipcodes_locations batch s).zips = s.zips ∧
       (upsert_cities_zipcodes_locations batch s).locs = s.locs) := by
  refine ⟨fun s h => norm_zip_5_of_blank h, fun s h h1 h5 => norm_zip_5_of_len h h1 h5,
    fun s h => lpad5_of_len5 h, ?_, by decide, by decide, ?_, ?_⟩
  · intro s h hlen
    unfold norm_zip_5
    rw [if_neg h, if_neg]
    rcases hlen with h0 | h5
    · omega
    · omega
  · intro batch s r z hr hz
    unfold upsert_cities_zipcodes_locations
    refine mem_insertNew ?_
    exact List.mem_filterMap.2 ⟨r, hr, hz⟩
  · intro batch s h
    have hzip : zipCodes batch = [] := by
      refine List.filterMap_eq_nil_iff.2 ?_
      intro r hr; exact h r hr
    have hloc : ∀ c z, locPairs batch c z = [] := by
      intro c z
      refine List.filterMap_eq_nil_iff.2 ?_
      intro r hr
      unfold locPairs at *
      rw [h r hr]
    unfold upsert_cities_zipcodes_locations
    rw [hzip, hloc]
    exact ⟨insertNew_of_forall_mem (by intro x hx; cases hx),
      insertNew_of_forall_mem (by intro x hx; cases hx)⟩

/-- C6 witness: the amended rule applied at concrete inputs. -/
theorem zip_rule_amended_witness :
    norm_zip_5 " 7501 " = some "07501" ∧
    (upsert_cities_zipcodes_locations [zipOnlyRow "ABCDE"] emptyState).zips = [] := by
  constructor
  · have h := zip_rule_amended.2.1 " 7501 " (by decide) (by decide) (by decide)
    rw [h]; decide
  · exact (zip_rule_amended.2.2.2.2.2.2.2 [zipOnlyRow "ABCDE"] emptyState (by decide)).1

/-- C7.  The header contract is checked case-insensitively against the declared
logical column set, and any missing logical column makes the pipeline return an
error carrying no state: no staging, dimension, listing, description or version
write happens. -/
theorem header_contract_hard_failure :
    (∀ cols, missing_headers cols = [] ↔ ∀ c ∈ EXPECTED, c ∈ cols.map lowerStr) ∧
    (∀ cols batch now s, missing_headers cols ≠ [] →
       run_pipeline cols batch now s = Except.error (missing_headers cols)) := by
  constructor
  · intro cols
    simp [missing_headers, List.filter_eq_nil_iff]
  · intro cols batch now s h
    unfold run_pipeline
    rw [if_neg h]

/-- C7 witness: a batch missing most logical columns fails before any write. -/
theorem header_contract_hard_failure_witness :
    run_pipeline ["Price", "AREA"] [] 0 emptyState =
      Except.error (missing_headers ["Price", "AREA"]) :=
  header_contract_hard_failure.2 ["Price", "AREA"] [] 0 emptyState (by decide)

lemma factDistinct_eq_false_iff {a b : Fact} : factDistinct a b = false ↔ a = b := by
  unfold factDistinct
  simp only [Bool.or_eq_false_iff, decide_eq_false_iff_not, not_not]
  constructor
  · rintro ⟨⟨⟨⟨⟨⟨⟨h1, h2⟩, h3⟩, h4⟩, h5⟩, h6⟩, h7⟩, h8⟩
    cases a; cases b; simp_all
  · rintro rfl; simp

lemma factDistinct_self (a : Fact) : factDistinct a a = false :=
  factDistinct_eq_false_iff.2 rfl

lemma factDistinct_eq_true_iff {a b : Fact} : factDistinct a b = true ↔ a ≠ b := by
  constructor
  · intro h he
    subst he
    rw [factDistinct_self] at h
    cases h
  · intro h
    cases hfd : factDistinct a b
    · exact absurd (factDistinct_eq_false_iff.1 hfd) h
    · rfl

lemma mem_opensFor {db : List Version} {L : String} {v : Version} :
    v ∈ opensFor db L ↔ v ∈ db ∧ v.listing_id = L ∧ v.valid_to = none := by
  simp [opensFor, List.mem_filter, and_assoc]

lemma opensFor_eq_nil {db : List Version} {L : String} :
    opensFor db L = [] ↔ ∀ v ∈ db, ¬(v.listing_id = L ∧ v.valid_to = none) := by
  simp [opensFor, List.filter_eq_nil_iff]

lemma mem_stg_delta {inc : List Incoming} {db : List Version} {i : Incoming} :
    i ∈ stg_delta inc db ↔
      i ∈ inc ∧ (opensFor db i.listing_id = [] ∨
        ∃ c ∈ opensFor db i.listing_id, factDistinct c.fact i.fact = true) := by
  unfold stg_delta
  rw [List.mem_flatMap]
  constructor
  · rintro ⟨j, hj, hm⟩
    by_cases he : (opensFor db j.listing_id).isEmpty
    · rw [if_pos he] at hm
      rcases List.mem_singleton.1 hm with rfl
      exact ⟨hj, Or.inl (List.isEmpty_iff.1 he)⟩
    · rw [if_neg he] at hm
      rcases List.mem_map.1 hm with ⟨c, hc, rfl⟩
      rcases List.mem_filter.1 hc with ⟨hc1, hc2⟩
      exact ⟨hj, Or.inr ⟨c, hc1, hc2⟩⟩
  · rintro ⟨hi, h | ⟨c, hc, hd⟩⟩
    · exact ⟨i, hi, by rw [if_pos (List.isEmpty_iff.2 h)]; exact List.mem_singleton.2 rfl⟩
    · refine ⟨i, hi, ?_⟩
      rw [if_neg (by intro he; rw [List.isEmpty_iff.1 he] at hc; cases hc)]
      exact List.mem_map.2 ⟨c, List.mem_filter.2 ⟨hc, hd⟩, rfl⟩

lemma stg_delta_sublist_of_singletons {inc : List Incoming} {db : List Version}
    (h : ∀ i ∈ inc, (opensFor db i.listing_id).length ≤ 1) :
    List.Sublist (stg_delta inc db) inc := by
  induction inc with
  | nil => simp [stg_delta]
  | cons a l ih =>
    have ha := h a (List.mem_cons_self a l)
    have hl : List.Sublist (stg_delta l db) l := ih (fun i hi => h i (List.mem_cons_of_mem a hi))
    show List.Sublist ((if (opensFor db a.listing_id).isEmpty then [a]
      else ((opensFor db a.listing_id).filter (fun c => factDistinct c.fact a.fact)).map
        (fun _ => a)) ++ stg_delta l db) (a :: l)
    by_cases he : (opensFor db a.listing_id).isEmpty
    · rw [if_pos he]
      exact List.Sublist.cons₂ a hl
    · rw [if_neg he]
      have hlen : (((opensFor db a.listing_id).filter
          (fun c => factDistinct c.fact a.fact)).map (fun _ => a)).length ≤ 1 := by
        rw [List.length_map]
        exact le_trans (List.length_filter_le _ _) ha
      rcases hx : ((opensFor db a.listing_id).filter
          (fun c => factDistinct c.fact a.fact)).map (fun _ => a) with _ | ⟨b, bs⟩
      · rw [hx, List.nil_append]
        exact List.Sublist.cons a hl
      · have hb : b = a := by
          have : b ∈ ((opensFor db a.listing_id).filter
              (fun c => factDistinct c.fact a.fact)).map (fun _ => a) := by
            rw [hx]; exact List.mem_cons_self b bs
          rcases List.mem_map.1 this with ⟨_, _, h2⟩
          exact h2.symm
        have hbs : bs = [] := by
          have := congrArg List.length hx
          rw [List.length_cons] at this
          rw [hx] at hlen
          rw [List.length_cons] at hlen
          exact List.length_eq_zero.1 (by omega)
        rw [hx, hbs, hb, List.cons_append, List.nil_append]
        exact List.Sublist.cons₂ a hl

lemma closeOne_listing_id (delta : List Incoming) (t : Version) :
    (closeOne delta t).listing_id = t.listing_id := by
  unfold closeOne
  by_cases h : t.valid_to = none
  · rw [if_pos h]
    cases hf : delta.find? (closeMatch t) <;> rfl
  · rw [if_neg h]

lemma closeOne_fact (delta : List Incoming) (t : Version) :
    (closeOne delta t).fact = t.fact := by
  unfold closeOne
  by_cases h : t.valid_to = none
  · rw [if_pos h]
    cases hf : delta.find? (closeMatch t) <;> rfl
  · rw [if_neg h]

lemma closeOne_valid_from (delta : List Incoming) (t : Version) :
    (closeOne delta t).valid_from = t.valid_from := by
  unfold closeOne
  by_cases h : t.valid_to = none
  · rw [if_pos h]
    cases hf : delta.find? (closeMatch t) <;> rfl
  · rw [if_neg h]

lemma closeOne_closed {delta : List Incoming} {t : Version} (h : t.valid_to ≠ none) :
    closeOne delta t = t := by
  unfold closeOne
  rw [if_neg h]

lemma closeOne_of_find_none {delta : List Incoming} {t : Version}
    (h : delta.find? (closeMatch t) = none) : closeOne delta t = t := by
  unfold closeOne
  by_cases ho : t.valid_to = none
  · rw [if_pos ho, h]
  · rw [if_neg ho]

lemma closeOne_of_find_some {delta : List Incoming} {t : Version} {d : Incoming}
    (ho : t.valid_to = none) (h : delta.find? (closeMatch t) = some d) :
    closeOne delta t = { t with valid_to := some d.valid_from } := by
  unfold closeOne
  rw [if_pos ho, h]

lemma closeOne_open_iff {delta : List Incoming} {t : Version} :
    (closeOne delta t).valid_to = none ↔
      t.valid_to = none ∧ delta.find? (closeMatch t) = none := by
  constructor
  · intro h
    by_cases ho : t.valid_to = none
    · cases hf : delta.find? (closeMatch t) with
      | none => exact ⟨ho, rfl⟩
      | some d =>
        rw [closeOne_of_find_some ho hf] at h
        cases h
    · rw [closeOne_closed ho] at h
      exact absurd h ho
  · rintro ⟨ho, hf⟩
    rw [closeOne_of_find_none hf]
    exact ho

lemma closeOne_open_imp {delta : List Incoming} {t : Version}
    (h : (closeOne delta t).valid_to = none) : t.valid_to = none :=
  (closeOne_open_iff.1 h).1

lemma mem_closeStep {delta : List Incoming} {db : List Version} {v : Version} :
    v ∈ closeStep delta db ↔ ∃ t ∈ db, v = closeOne delta t := by
  unfold closeStep
  rw [List.mem_map]
  constructor
  · rintro ⟨t, ht, rfl⟩; exact ⟨t, ht, rfl⟩
  · rintro ⟨t, ht, rfl⟩; exact ⟨t, ht, rfl⟩

lemma mem_insertedRows {delta : List Incoming} {db1 : List Version} {v : Version} :
    v ∈ insertedRows delta db1 ↔
      ∃ d ∈ delta, (∀ t ∈ db1, ¬(t.listing_id = d.listing_id ∧ t.valid_to = none)) ∧
        v = mkOpenV d := by
  unfold insertedRows
  rw [List.mem_map]
  constructor
  · rintro ⟨d, hd, rfl⟩
    rcases List.mem_filter.1 hd with ⟨hd1, hd2⟩
    rw [Bool.not_eq_true', List.any_eq_false] at hd2
    refine ⟨d, hd1, ?_, rfl⟩
    intro t ht
    have := hd2 t ht
    simpa using this
  · rintro ⟨d, hd, hg, rfl⟩
    refine ⟨d, List.mem_filter.2 ⟨hd, ?_⟩, rfl⟩
    rw [Bool.not_eq_true', List.any_eq_false]
    intro t ht
    simpa using hg t ht

lemma applySCD2_of_not_empty {inc : List Incoming} {db : List Version}
    (h : ¬(stg_delta inc db).isEmpty) :
    applySCD2 inc db = closeStep (stg_delta inc db) db
      ++ insertedRows (stg_delta inc db) (closeStep (stg_delta inc db) db) := by
  unfold applySCD2
  rw [if_neg h]

lemma applySCD2_of_empty {inc : List Incoming} {db : List Version}
    (h : (stg_delta inc db).isEmpty) : applySCD2 inc db = db := by
  unfold applySCD2
  rw [if_pos h]


lemma mem_build_incoming {batch : List Row} {now : Nat} {ls : List Listing} {i : Incoming} :
    i ∈ build_incoming batch now ls ↔
      ∃ r ∈ batch, btrim r.listing_id ≠ "" ∧ (∃ l ∈ ls, l.ext_id = btrim r.listing_id) ∧
        i = incomingOf r now := by
  unfold build_incoming
  rw [List.mem_flatMap]
  constructor
  · rintro ⟨r, hr, hm⟩
    by_cases hk : btrim r.listing_id = ""
    · rw [if_pos hk] at hm; cases hm
    · rw [if_neg hk] at hm
      rcases List.mem_map.1 hm with ⟨l, hl, rfl⟩
      rcases List.mem_filter.1 hl with ⟨hl1, hl2⟩
      exact ⟨r, hr, hk, ⟨l, hl1, by simpa using hl2⟩, rfl⟩
  · rintro ⟨r, hr, hk, ⟨l, hl, hle⟩, rfl⟩
    refine ⟨r, hr, ?_⟩
    rw [if_neg hk]
    exact List.mem_map.2 ⟨l, List.mem_filter.2 ⟨hl, by simpa using hle⟩, rfl⟩

lemma any_mem_false {α : Type} {p : α → Bool} {l : List α} {x : α}
    (h : l.any p = false) (hx : x ∈ l) : p x = false := by
  cases hpx : p x
  · rfl
  · have h2 : l.any p = true := List.any_eq_true.2 ⟨x, hx, hpx⟩
    rw [h] at h2
    cases h2

/-- C8 (amended).  A row whose price is non-numeric but whose area parses is
not dropped: provided no integer cast of the joined batch falls out of range
(so the `stg_listing_incoming` CTAS completes instead of aborting the whole
load), the row's own cast expressions complete, it reaches the incoming-fact
stage with price = unknown and area = the parsed value, and — when its listing
has no open version — the applied SCD-2 step opens a version carrying exactly
those values. -/
theorem malformed_field_degrades
    (batch : List Row) (r : Row) (ls : List Listing) (db : List Version) (now : Nat) (a : ℚ)
    (hr : r ∈ batch) (hkey : btrim r.listing_id ≠ "")
    (hls : ∃ l ∈ ls, l.ext_id = btrim r.listing_id)
    (hprice : num_nonneg r.price = none) (harea : num_nonneg r.area = some a)
    (hok : incomingAborts batch ls = false) :
    incomingAborts [r] ls = false ∧
    (∃ i ∈ build_incoming batch now ls,
       i.listing_id = btrim r.listing_id ∧ i.fact.price = none ∧ i.fact.area = some a) ∧
    ((∀ v ∈ db, ¬(v.listing_id = btrim r.listing_id ∧ v.valid_to = none)) →
       ∃ v ∈ applySCD2 (build_incoming [r] now ls) db,
         v.listing_id = btrim r.listing_id ∧ v.valid_to = none ∧
         v.fact.price = none ∧ v.fact.area = some a) := by
  unfold incomingAborts at hok ⊢
  have hfr := any_mem_false hok hr
  refine ⟨?_, ?_, ?_⟩
  · rw [List.any_cons, List.any_nil, Bool.or_false]
    exact hfr
  · refine ⟨incomingOf r now, mem_build_incoming.2 ⟨r, hr, hkey, hls, rfl⟩, rfl, ?_, ?_⟩
    · show (mkFact r).price = none
      simpa [mkFact] using hprice
    · show (mkFact r).area = some a
      simpa [mkFact] using harea
  · intro hopen
    have hi : incomingOf r now ∈ build_incoming [r] now ls :=
      mem_build_incoming.2 ⟨r, List.mem_singleton.2 rfl, hkey, hls, rfl⟩
    have hnil : opensFor db (incomingOf r now).listing_id = [] := by
      refine opensFor_eq_nil.2 ?_
      intro v hv
      exact hopen v hv
    have hdel : incomingOf r now ∈ stg_delta (build_incoming [r] now ls) db :=
      mem_stg_delta.2 ⟨hi, Or.inl hnil⟩
    have hne : ¬(stg_delta (build_incoming [r] now ls) db).isEmpty := by
      rw [List.isEmpty_iff]
      intro h
      rw [h] at hdel
      cases hdel
    rw [applySCD2_of_not_empty hne]
    refine ⟨mkOpenV (incomingOf r now),
      List.mem_append_right _ (mem_insertedRows.2 ⟨incomingOf r now, hdel, ?_, rfl⟩),
      rfl, rfl, ?_, ?_⟩
    · rintro t ht ⟨hlid, hop⟩
      rcases mem_closeStep.1 ht with ⟨t0, ht0, rfl⟩
      have h1 : t0.valid_to = none := closeOne_open_imp hop
      have h2 : t0.listing_id = (incomingOf r now).listing_id := by
        rw [← closeOne_listing_id (stg_delta (build_incoming [r] now ls) db) t0]
        exact hlid
      exact hopen t0 ht0 ⟨h2, h1⟩
    · show (mkFact r).price = none
      simpa [mkFact] using hprice
    · show (mkFact r).area = some a
      simpa [mkFact] using harea


lemma num_nonneg_50 : num_nonneg "50" = some 50 := by
  unfold num_nonneg parseSigned
  rw [if_neg (by decide), if_pos (by decide)]
  have hl : "50".data.filter keepNumChar = ['5', '0'] := by decide
  have hv : numVal ("50".data.filter keepNumChar) = 50 := by
    have h0 : numVal ("50".data.filter keepNumChar) = ((natOfDigits ['5', '0'] : ℚ) + 0) := rfl
    rw [h0, show natOfDigits ['5', '0'] = 50 from by decide]
    norm_num
  rw [Option.some_bind, hv, if_pos (by norm_num)]

/-- C8 witness: price "abc" degrades to unknown while area "50" is kept, on a
fresh listing, with every cast of the batch in range. -/
theorem malformed_field_degrades_witness :
    ∃ v ∈ applySCD2 (build_incoming
        [{ zipOnlyRow "" with listing_id := "A-1", price := "abc", area := "50" }] 0
        [{ blankListing with ext_id := "A-1" }]) [],
      v.listing_id = btrim "A-1" ∧ v.valid_to = none ∧
      v.fact.price = none ∧ v.fact.area = some 50 :=
  (malformed_field_degrades
      [{ zipOnlyRow "" with listing_id := "A-1", price := "abc", area := "50" }]
      { zipOnlyRow "" with listing_id := "A-1", price := "abc", area := "50" }
      [{ blankListing with ext_id := "A-1" }] [] 0 50
      (List.mem_singleton.2 rfl) (by decide) (by decide) (by decide) num_nonneg_50
      (by decide)).2.2
    (by intro v hv; cases hv)

/-- C8 (counterexample).  A staged row whose malformed price does degrade to
NULL but whose build-year digit run exceeds the int4 range: the `::int` cast in
the listing upsert raises, the one-transaction load aborts with no state
written — the model without the casts would instead have inserted an open
version for the row. -/
theorem cast_abort_counterexample :
    num_nonneg cexRow.price = none ∧
    exprAborts (year_1800_2100 cexRow.build_year) = true ∧
    loadAborted (runLoadE [cexRow] 0 emptyState) = true ∧
    (runLoad [cexRow] 0 emptyState).versions.length = 1 := by
  refine ⟨?_, ?_, ?_, ?_⟩ <;> decide


lemma countKey_cons {α κ : Type} [DecidableEq κ] (key : α → κ) (a : α) (t : List α) (k : κ) :
    countKey key (a :: t) k = (if key a = k then 1 else 0) + countKey key t k := by
  by_cases h : key a = k <;> simp [countKey, List.filter_cons, h, Nat.add_comm]

lemma countKey_append {α κ : Type} [DecidableEq κ] (key : α → κ) (a b : List α) (k : κ) :
    countKey key (a ++ b) k = countKey key a k + countKey key b k := by
  simp [countKey, List.filter_append]

lemma countKey_eq_zero {α κ : Type} [DecidableEq κ] {key : α → κ} {l : List α} {k : κ} :
    countKey key l k = 0 ↔ ∀ e ∈ l, key e ≠ k := by
  simp [countKey, List.length_eq_zero, List.filter_eq_nil_iff]

lemma countKey_nil {α κ : Type} [DecidableEq κ] (key : α → κ) (k : κ) :
    countKey key ([] : List α) k = 0 := rfl

lemma kbRepl_cases {α κ : Type} [DecidableEq κ] (key : α → κ) (better : α → α → Bool)
    (r e : α) :
    (key e = key r ∧ better e r = true ∧ kbRepl key better r e = r) ∨
    (key e = key r ∧ better e r = false ∧ kbRepl key better r e = e) ∨
    (key e ≠ key r ∧ kbRepl key better r e = e) := by
  unfold kbRepl
  by_cases hk : key e = key r
  · cases hb : better e r
    · exact Or.inr (Or.inl ⟨hk, rfl, by simp [hk, hb]⟩)
    · exact Or.inl ⟨hk, rfl, by simp [hk, hb]⟩
  · exact Or.inr (Or.inr ⟨hk, by simp [hk]⟩)

lemma kbRepl_key {α κ : Type} [DecidableEq κ] (key : α → κ) (better : α → α → Bool)
    (r e : α) : key (kbRepl key better r e) = key e := by
  rcases kbRepl_cases key better r e with ⟨hk, _, he⟩ | ⟨_, _, he⟩ | ⟨_, he⟩
  · rw [he, hk]
  · rw [he]
  · rw [he]

lemma countKey_map_kbRepl {α κ : Type} [DecidableEq κ] (key : α → κ)
    (better : α → α → Bool) (r : α) (l : List α) (k : κ) :
    countKey key (l.map (kbRepl key better r)) k = countKey key l k := by
  induction l with
  | nil => rfl
  | cons a t ih =>
    rw [List.map_cons, countKey_cons, countKey_cons, kbRepl_key key better r a, ih]

lemma kbStep_inv {α κ : Type} [DecidableEq κ] {key : α → κ} {better : α → α → Bool}
    {le : α → α → Prop}
    (hbt : ∀ e r, better e r = true → le e r)
    (hbf : ∀ e r, better e r = false → le r e)
    (htr : ∀ a b c, le a b → le b c → le a c)
    {pre acc : List α} {r : α}
    (h1 : ∀ k, countKey key acc k ≤ 1)
    (h2 : ∀ e ∈ acc, e ∈ pre)
    (h3 : ∀ e ∈ acc, ∀ x ∈ pre, key x = key e → le x e)
    (h4 : ∀ x ∈ pre, ∃ e ∈ acc, key e = key x) :
    (∀ k, countKey key (kbStep key better acc r) k ≤ 1) ∧
    (∀ e ∈ kbStep key better acc r, e ∈ pre ++ [r]) ∧
    (∀ e ∈ kbStep key better acc r, ∀ x ∈ pre ++ [r], key x = key e → le x e) ∧
    (∀ x ∈ pre ++ [r], ∃ e ∈ kbStep key better acc r, key e = key x) := by
  have hrefl : ∀ a, le a a := by
    intro a
    cases hb : better a a
    · exact hbf a a hb
    · exact hbt a a hb
  unfold kbStep
  by_cases hany : acc.any (fun e => decide (key e = key r)) = true
  · rw [if_pos hany]
    rw [List.any_eq_true] at hany
    rcases hany with ⟨e0, he0, he0k⟩
    rw [decide_eq_true_eq] at he0k
    refine ⟨?_, ?_, ?_, ?_⟩
    · intro k
      rw [countKey_map_kbRepl]
      exact h1 k
    · intro e he
      rcases List.mem_map.1 he with ⟨a, ha, rfl⟩
      rcases kbRepl_cases key better r a with ⟨_, _, hre⟩ | ⟨_, _, hre⟩ | ⟨_, hre⟩
      · rw [hre]; exact List.mem_append_right _ (List.mem_singleton.2 rfl)
      · rw [hre]; exact List.mem_append_left _ (h2 a ha)
      · rw [hre]; exact List.mem_append_left _ (h2 a ha)
    · intro e he x hx hkx
      rcases List.mem_map.1 he with ⟨a, ha, rfl⟩
      rw [kbRepl_key key better r a] at hkx
      rcases List.mem_append.1 hx with hx | hx
      · -- x is an old batch row
        rcases kbRepl_cases key better r a with ⟨hk, hb, hre⟩ | ⟨_, hb, hre⟩ | ⟨_, hre⟩
        · rw [hre]
          exact htr x a r (h3 a ha x hx hkx) (hbt a r hb)
        · rw [hre]
          exact h3 a ha x hx hkx
        · rw [hre]
          exact h3 a ha x hx hkx
      · -- x = r
        obtain rfl : r = x := (List.mem_singleton.1 hx).symm
        rcases kbRepl_cases key better r a with ⟨hk, hb, hre⟩ | ⟨_, hb, hre⟩ | ⟨hk, hre⟩
        · rw [hre]; exact hrefl r
        · rw [hre]; exact hbf a r hb
        · exact absurd hkx.symm hk
    · intro x hx
      rcases List.mem_append.1 hx with hx | hx
      · rcases h4 x hx with ⟨e, he, hek⟩
        exact ⟨kbRepl key better r e, List.mem_map.2 ⟨e, he, rfl⟩,
          by rw [kbRepl_key key better r e, hek]⟩
      · obtain rfl : r = x := (List.mem_singleton.1 hx).symm
        exact ⟨kbRepl key better r e0, List.mem_map.2 ⟨e0, he0, rfl⟩,
          by rw [kbRepl_key key better r e0, he0k]⟩
  · rw [if_neg hany]
    have hnone : ∀ e ∈ acc, key e ≠ key r := by
      intro e he hk
      exact hany (List.any_eq_true.2 ⟨e, he, decide_eq_true hk⟩)
    refine ⟨?_, ?_, ?_, ?_⟩
    · intro k
      rw [countKey_append, countKey_cons, countKey_nil]
      by_cases hk : key r = k
      · have hz : countKey key acc k = 0 := by
          refine countKey_eq_zero.2 ?_
          intro e he hek
          exact hnone e he (by rw [hek, hk])
        rw [hz, hk]
        simp
      · rw [if_neg hk]
        have := h1 k
        omega
    · intro e he
      rcases List.mem_append.1 he with he | he
      · exact List.mem_append_left _ (h2 e he)
      · exact List.mem_append_right _ he
    · intro e he x hx hkx
      rcases List.mem_append.1 he with he | he
      · rcases List.mem_append.1 hx with hx | hx
        · exact h3 e he x hx hkx
        · obtain rfl : r = x := (List.mem_singleton.1 hx).symm
          exact absurd hkx (fun hh => hnone e he hh.symm)
      · obtain rfl : r = e := (List.mem_singleton.1 he).symm
        rcases List.mem_append.1 hx with hx | hx
        · rcases h4 x hx with ⟨e2, he2, hek⟩
          exact absurd (hek.trans hkx) (hnone e2 he2)
        · obtain rfl : r = x := (List.mem_singleton.1 hx).symm
          exact hrefl r
    · intro x hx
      rcases List.mem_append.1 hx with hx | hx
      · rcases h4 x hx with ⟨e, he, hek⟩
        exact ⟨e, List.mem_append_left _ he, hek⟩
      · obtain rfl : r = x := (List.mem_singleton.1 hx).symm
        exact ⟨r, List.mem_append_right _ (List.mem_singleton.2 rfl), rfl⟩

lemma kbFold_inv {α κ : Type} [DecidableEq κ] {key : α → κ} {better : α → α → Bool}
    {le : α → α → Prop}
    (hbt : ∀ e r, better e r = true → le e r)
    (hbf : ∀ e r, better e r = false → le r e)
    (htr : ∀ a b c, le a b → le b c → le a c)
    (l : List α) :
    ∀ (pre acc : List α),
      (∀ k, countKey key acc k ≤ 1) →
      (∀ e ∈ acc, e ∈ pre) →
      (∀ e ∈ acc, ∀ x ∈ pre, key x = key e → le x e) →
      (∀ x ∈ pre, ∃ e ∈ acc, key e = key x) →
      (∀ k, countKey key (l.foldl (kbStep key better) acc) k ≤ 1) ∧
      (∀ e ∈ l.foldl (kbStep key better) acc, e ∈ pre ++ l) ∧
      (∀ e ∈ l.foldl (kbStep key better) acc, ∀ x ∈ pre ++ l, key x = key e → le x e) ∧
      (∀ x ∈ pre ++ l, ∃ e ∈ l.foldl (kbStep key better) acc, key e = key x) := by
  induction l with
  | nil =>
    intro pre acc h1 h2 h3 h4
    refine ⟨h1, ?_, ?_, ?_⟩
    · intro e he; rw [List.append_nil]; exact h2 e he
    · intro e he x hx; rw [List.append_nil] at hx; exact h3 e he x hx
    · intro x hx; rw [List.append_nil] at hx; exact h4 x hx
  | cons r t ih =>
    intro pre acc h1 h2 h3 h4
    rcases kbStep_inv hbt hbf htr h1 h2 h3 h4 (r := r) with ⟨g1, g2, g3, g4⟩
    have := ih (pre ++ [r]) (kbStep key better acc r) g1 g2 g3 g4
    rw [List.append_assoc, List.singleton_append] at this
    exact this

lemma keepBest_props {α κ : Type} [DecidableEq κ] (key : α → κ) (better : α → α → Bool)
    (le : α → α → Prop)
    (hbt : ∀ e r, better e r = true → le e r)
    (hbf : ∀ e r, better e r = false → le r e)
    (htr : ∀ a b c, le a b → le b c → le a c)
    (l : List α) :
    (∀ k, countKey key (keepBest key better l) k ≤ 1) ∧
    (∀ e ∈ keepBest key better l, e ∈ l) ∧
    (∀ e ∈ keepBest key better l, ∀ x ∈ l, key x = key e → le x e) ∧
    (∀ x ∈ l, ∃ e ∈ keepBest key better l, key e = key x) := by
  have h := kbFold_inv hbt hbf htr l [] []
    (by intro k; exact Nat.le_of_eq (countKey_nil key k) |>.trans (Nat.zero_le 1))
    (by intro e he; cases he) (by intro e he x hx; cases hx) (by intro x hx; cases hx)
  rw [List.nil_append] at h
  exact h


lemma optLE_eq_true_iff {a b : Option Nat} : optLE a b = true ↔ toE a ≤ toE b := by
  cases a <;> cases b <;> simp [optLE, toE]

lemma dkLE_eq_true_iff {a b : Option Nat × Option Nat} :
    dkLE a b = true ↔
      (toE a.1 < toE b.1 ∨ (toE a.1 = toE b.1 ∧ toE a.2 ≤ toE b.2)) := by
  unfold dkLE
  rw [Bool.or_eq_true, Bool.and_eq_true, Bool.and_eq_true, Bool.and_eq_true,
    Bool.not_eq_true', ← Bool.not_eq_true]
  rw [optLE_eq_true_iff, optLE_eq_true_iff, optLE_eq_true_iff]
  constructor
  · rintro (⟨h1, h2⟩ | ⟨⟨h1, h2⟩, h3⟩)
    · exact Or.inl (lt_of_le_not_le h1 h2)
    · exact Or.inr ⟨le_antisymm h1 h2, h3⟩
  · rintro (h | ⟨h1, h2⟩)
    · exact Or.inl ⟨le_of_lt h, not_le_of_lt h⟩
    · exact Or.inr ⟨⟨le_of_eq h1, le_of_eq h1.symm⟩, h2⟩

lemma dkLE_total (a b : Option Nat × Option Nat) : dkLE a b = true ∨ dkLE b a = true := by
  rw [dkLE_eq_true_iff, dkLE_eq_true_iff]
  rcases lt_trichotomy (toE a.1) (toE b.1) with h | h | h
  · exact Or.inl (Or.inl h)
  · rcases le_total (toE a.2) (toE b.2) with h2 | h2
    · exact Or.inl (Or.inr ⟨h, h2⟩)
    · exact Or.inr (Or.inr ⟨h.symm, h2⟩)
  · exact Or.inr (Or.inl h)

lemma dkLE_trans (a b c : Option Nat × Option Nat)
    (h1 : dkLE a b = true) (h2 : dkLE b c = true) : dkLE a c = true := by
  rw [dkLE_eq_true_iff] at *
  rcases h1 with h1 | ⟨h1, h1b⟩
  · rcases h2 with h2 | ⟨h2, h2b⟩
    · exact Or.inl (lt_trans h1 h2)
    · exact Or.inl (h2 ▸ h1)
  · rcases h2 with h2 | ⟨h2, h2b⟩
    · exact Or.inl (h1 ▸ h2)
    · exact Or.inr ⟨h1.trans h2, h1b.trans h2b⟩

lemma countKey_sublist_le {α κ : Type} [DecidableEq κ] (key : α → κ) {l1 l2 : List α}
    (h : List.Sublist l1 l2) (k : κ) : countKey key l1 k ≤ countKey key l2 k :=
  List.Sublist.length_le (List.Sublist.filter _ h)

lemma countOpen_le_one {db : List Version} (h : atMostOneOpen db) (L : String) :
    countOpen db L ≤ 1 := by
  rcases hn : opensFor db L with _ | ⟨v, t⟩
  · simp [countOpen, hn]
  · have hv : v ∈ opensFor db L := by rw [hn]; exact List.mem_cons_self v t
    rcases mem_opensFor.1 hv with ⟨hvdb, hvl, _⟩
    have := h v hvdb
    rw [hvl] at this
    exact this

lemma countKey_congr {α κ : Type} [DecidableEq κ] {k1 k2 : α → κ} {l : List α}
    (h : ∀ e ∈ l, k1 e = k2 e) (k : κ) : countKey k1 l k = countKey k2 l k := by
  induction l with
  | nil => rfl
  | cons a t ih =>
    rw [countKey_cons, countKey_cons, h a (List.mem_cons_self a t),
      ih (fun e he => h e (List.mem_cons_of_mem a he))]

lemma countKey_build_incoming {rows : List Row} {ls : List Listing} {now : Nat}
    (hls : ∀ k, countKey Listing.ext_id ls k ≤ 1) (k : String) :
    countKey Incoming.listing_id (build_incoming rows now ls) k ≤
      countKey (fun r => btrim r.listing_id) rows k := by
  induction rows with
  | nil => simp [build_incoming, countKey]
  | cons r t ih =>
    have hsplit : build_incoming (r :: t) now ls =
        (if btrim r.listing_id = "" then []
         else (ls.filter (fun l => decide (l.ext_id = btrim r.listing_id))).map
           (fun _ => incomingOf r now)) ++ build_incoming t now ls := rfl
    rw [hsplit, countKey_append, countKey_cons]
    have hhead : countKey Incoming.listing_id
        (if btrim r.listing_id = "" then []
         else (ls.filter (fun l => decide (l.ext_id = btrim r.listing_id))).map
           (fun _ => incomingOf r now)) k ≤ (if btrim r.listing_id = k then 1 else 0) := by
      by_cases hb : btrim r.listing_id = ""
      · rw [if_pos hb]
        simp [countKey]
      · rw [if_neg hb]
        by_cases hrk : btrim r.listing_id = k
        · rw [if_pos hrk]
          have h1 : countKey Incoming.listing_id
              ((ls.filter (fun l => decide (l.ext_id = btrim r.listing_id))).map
                (fun _ => incomingOf r now)) k ≤
              ((ls.filter (fun l => decide (l.ext_id = btrim r.listing_id))).map
                (fun _ => incomingOf r now)).length := by
            unfold countKey
            exact List.length_filter_le _ _
          have h2 : ((ls.filter (fun l => decide (l.ext_id = btrim r.listing_id))).map
              (fun _ => incomingOf r now)).length =
              countKey Listing.ext_id ls (btrim r.listing_id) := by
            rw [List.length_map]
            rfl
          exact le_trans h1 (by rw [h2]; exact hls (btrim r.listing_id))
        · rw [if_neg hrk]
          have hz : countKey Incoming.listing_id
              ((ls.filter (fun l => decide (l.ext_id = btrim r.listing_id))).map
                (fun _ => incomingOf r now)) k = 0 := by
            refine countKey_eq_zero.2 ?_
            intro e he hek
            rcases List.mem_map.1 he with ⟨_, _, rfl⟩
            exact hrk (by rw [← hek]; rfl)
          rw [hz]
    omega


lemma countKey_le_length {α κ : Type} [DecidableEq κ] (key : α → κ) (l : List α) (k : κ) :
    countKey key l k ≤ l.length :=
  List.length_filter_le _ _

/-- C4 (counterexample).  The upstream dedup compares raw business-key strings
while the loader joins on the trimmed key, so " A" and "A" both survive into
the incoming-fact stage and produce two deltas for the one listing "A". -/
theorem dedup_whitespace_counterexample :
    2 ≤ countKey Incoming.listing_id
      (stg_delta (build_incoming (deduplicate_business_key
        [{ zipOnlyRow "" with listing_id := " A" },
         { zipOnlyRow "" with listing_id := "A" }]) 0
        [{ blankListing with ext_id := "A" }]) []) "A" := by
  decide

/-- C4 (amended).  Deduplication keeps at most one row per business-key string,
keeps only batch rows, and keeps a row whose (change date, start date) key is
maximal for its business key ("last value" in the dedup's sort order); provided
the batch's business keys carry no surrounding whitespace (so the raw key the
dedup compares coincides with the trimmed key the loader joins on) and the
listing table is key-unique, the Delta Engine then receives at most one
incoming fact — and hence at most one delta — per listing per batch. -/
theorem dedup_single_fact_per_listing (rows : List Row) (k : String) :
    countKey Row.listing_id (deduplicate_business_key rows) k ≤ 1 ∧
    (∀ r ∈ deduplicate_business_key rows, r ∈ rows) ∧
    (∀ r ∈ deduplicate_business_key rows, ∀ x ∈ rows, x.listing_id = r.listing_id →
       dkLE (dateKey x) (dateKey r) = true) ∧
    ((∀ r ∈ rows, btrim r.listing_id = r.listing_id) →
      ∀ (now : Nat) (ls : List Listing) (db : List Version),
        (∀ k2, countKey Listing.ext_id ls k2 ≤ 1) → atMostOneOpen db →
        countKey Incoming.listing_id
          (build_incoming (deduplicate_business_key rows) now ls) k ≤ 1 ∧
        countKey Incoming.listing_id
          (stg_delta (build_incoming (deduplicate_business_key rows) now ls) db) k ≤ 1) := by
  have hbf : ∀ e r : Row, dkLE (dateKey e) (dateKey r) = false →
      dkLE (dateKey r) (dateKey e) = true := by
    intro e r h
    rcases dkLE_total (dateKey e) (dateKey r) with h2 | h2
    · rw [h] at h2; cases h2
    · exact h2
  have props := keepBest_props Row.listing_id
    (fun e r => dkLE (dateKey e) (dateKey r))
    (fun x e => dkLE (dateKey x) (dateKey e) = true)
    (fun _ _ h => h) hbf (fun a b c h1 h2 => dkLE_trans _ _ _ h1 h2) rows
  refine ⟨props.1 k, props.2.1, props.2.2.1, ?_⟩
  intro hkeys now ls db hls hdb
  have hkeys' : ∀ r ∈ deduplicate_business_key rows, btrim r.listing_id = r.listing_id :=
    fun r hr => hkeys r (props.2.1 r hr)
  have hbi : countKey Incoming.listing_id
      (build_incoming (deduplicate_business_key rows) now ls) k ≤
      countKey (fun r => btrim r.listing_id) (deduplicate_business_key rows) k :=
    countKey_build_incoming hls k
  have heq : countKey (fun r => btrim r.listing_id) (deduplicate_business_key rows) k =
      countKey Row.listing_id (deduplicate_business_key rows) k :=
    countKey_congr hkeys' k
  have h1 := le_trans hbi (le_trans (le_of_eq heq) (props.1 k))
  refine ⟨h1, ?_⟩
  have hsing : ∀ i ∈ build_incoming (deduplicate_business_key rows) now ls,
      (opensFor db i.listing_id).length ≤ 1 :=
    fun i _ => countOpen_le_one hdb i.listing_id
  exact le_trans (countKey_sublist_le _ (stg_delta_sublist_of_singletons hsing) k) h1

/-- C4 witness: a two-row batch for one clean business key yields at most one
delta for that listing. -/
theorem dedup_single_fact_per_listing_witness :
    countKey Incoming.listing_id
      (stg_delta (build_incoming (deduplicate_business_key
        [{ zipOnlyRow "" with listing_id := "A", change_date := some 1 },
         { zipOnlyRow "" with listing_id := "A", change_date := some 2 }]) 0
        [{ blankListing with ext_id := "A" }]) []) "A" ≤ 1 :=
  ((dedup_single_fact_per_listing
      [{ zipOnlyRow "" with listing_id := "A", change_date := some 1 },
       { zipOnlyRow "" with listing_id := "A", change_date := some 2 }] "A").2.2.2
    (by decide) 0 [{ blankListing with ext_id := "A" }] []
    (fun k2 => le_trans (countKey_le_length _ _ _) (by decide))
    (by decide)).2


lemma one_le_countKey_of_mem {α κ : Type} [DecidableEq κ] {key : α → κ} {l : List α}
    {x : α} {k : κ} (hx : x ∈ l) (hk : key x = k) : 1 ≤ countKey key l k := by
  have : x ∈ l.filter (fun e => decide (key e = k)) :=
    List.mem_filter.2 ⟨hx, decide_eq_true hk⟩
  have := List.length_pos.2 (List.ne_nil_of_mem this)
  exact this

lemma two_le_countKey {α κ : Type} [DecidableEq κ] {key : α → κ} {l : List α} {x y : α}
    {k : κ} (hx : x ∈ l) (hy : y ∈ l) (hne : x ≠ y) (hkx : key x = k) (hky : key y = k) :
    2 ≤ countKey key l k := by
  induction l with
  | nil => cases hx
  | cons a t ih =>
    rw [countKey_cons]
    rcases List.mem_cons.1 hx with rfl | hx2
    · have hy2 : y ∈ t := by
        rcases List.mem_cons.1 hy with h | h
        · exact absurd h.symm hne
        · exact h
      rw [if_pos hkx]
      have := one_le_countKey_of_mem hy2 hky
      omega
    · rcases List.mem_cons.1 hy with rfl | hy2
      · rw [if_pos hky]
        have := one_le_countKey_of_mem hx2 hkx
        omega
      · have := ih hx2 hy2
        omega

lemma mem_upsertByKey {α κ : Type} [DecidableEq κ] {key : α → κ} {rows t : List α} {r0 : α}
    (hcnt : ∀ k, countKey key rows k ≤ 1) (hr0 : r0 ∈ rows) :
    r0 ∈ upsertByKey key rows t := by
  unfold upsertByKey
  by_cases hold : ∃ old ∈ t, key old = key r0
  · rcases hold with ⟨old, holdt, holdk⟩
    refine List.mem_append_left _ (List.mem_map.2 ⟨old, holdt, ?_⟩)
    cases hf : rows.find? (fun r => decide (key r = key old)) with
    | none =>
      have h2 := List.find?_eq_none.1 hf r0 hr0
      rw [decide_eq_true_eq] at h2
      exact absurd holdk.symm h2
    | some x =>
      have hxmem := List.mem_of_find?_eq_some hf
      have hxp := List.find?_some hf
      rw [decide_eq_true_eq] at hxp
      have hxe : x = r0 := by
        by_contra hne
        have h2 := two_le_countKey hxmem hr0 hne (hxp.trans holdk) rfl
        have := hcnt (key r0)
        omega
      rw [Option.getD_some, hxe]
  · refine List.mem_append_right _ (List.mem_filter.2 ⟨hr0, ?_⟩)
    rw [decide_eq_true_eq]
    intro old ht hk
    exact hold ⟨old, ht, hk⟩

lemma upsertByKey_eq_of_key {α κ : Type} [DecidableEq κ] {key : α → κ} {rows t : List α}
    (hcnt : ∀ k, countKey key rows k ≤ 1) {e : α} (he : e ∈ rows) :
    ∀ x ∈ upsertByKey key rows t, key x = key e → x = e := by
  intro x hx hk
  unfold upsertByKey at hx
  rcases List.mem_append.1 hx with hx | hx
  · rcases List.mem_map.1 hx with ⟨old, holdt, hxe⟩
    cases hf : rows.find? (fun r => decide (key r = key old)) with
    | none =>
      rw [hf, Option.getD_none] at hxe
      subst hxe
      have h2 := List.find?_eq_none.1 hf e he
      rw [decide_eq_true_eq] at h2
      exact absurd hk.symm h2
    | some y =>
      rw [hf, Option.getD_some] at hxe
      subst hxe
      have hymem := List.mem_of_find?_eq_some hf
      by_contra hne
      have h2 := two_le_countKey (k := key e) hymem he hne hk rfl
      have := hcnt (key e)
      omega
  · rcases List.mem_filter.1 hx with ⟨hxr, _⟩
    by_contra hne
    have h2 := two_le_countKey hxr he hne hk rfl
    have := hcnt (key e)
    omega


/-- C9.  For every batch and business key with at least one non-empty
description (and a resolvable listing), the stored listing_description body is
one of that key's batch descriptions, of maximal trimmed length among them,
and it is the unique body stored for the key; the pick is a pure function of
the batch, so the same batch always stores the same body. -/
theorem longest_description_stored
    (batch : List Row) (s : LState) (k : String) (r : Row)
    (hr : r ∈ batch) (hk : btrim r.listing_id = k) (hkne : k ≠ "")
    (hdesc : btrim r.description_fr ≠ "")
    (hls : ∃ l ∈ s.listings, l.ext_id = k) :
    ∃ b, (k, b) ∈ (upsert_descriptions batch s).descs ∧
      (∃ x ∈ batch, btrim x.listing_id = k ∧ btrim x.description_fr = b) ∧
      (∀ x ∈ batch, btrim x.listing_id = k → (btrim x.description_fr).length ≤ b.length) ∧
      (∀ b2, (k, b2) ∈ (upsert_descriptions batch s).descs → b2 = b) := by
  have props := keepBest_props Prod.fst longerDesc
    (fun x e : String × String => x.2.length ≤ e.2.length)
    (fun e r h => le_of_lt (of_decide_eq_true h))
    (fun e r h => le_of_not_lt (of_decide_eq_false h))
    (fun a b c h1 h2 => le_trans h1 h2) (descSrc batch)
  have hsrc : (k, btrim r.description_fr) ∈ descSrc batch := by
    refine List.mem_filterMap.2 ⟨r, hr, ?_⟩
    rw [if_pos ⟨hdesc, by rw [hk]; exact hkne⟩, hk]
  rcases props.2.2.2 (k, btrim r.description_fr) hsrc with ⟨e, hepick, hek⟩
  have hcntJ : ∀ k2, countKey Prod.fst (descJoined batch s) k2 ≤ 1 := by
    intro k2
    exact le_trans (countKey_sublist_le _ (List.filter_sublist _) k2) (props.1 k2)
  have hjoin : e ∈ descJoined batch s := by
    refine List.mem_filter.2 ⟨hepick, decide_eq_true ?_⟩
    rw [hek]
    exact hls
  have hemem : e ∈ (upsert_descriptions batch s).descs :=
    mem_upsertByKey hcntJ hjoin
  have hesrc : e ∈ descSrc batch := props.2.1 e hepick
  rcases List.mem_filterMap.1 hesrc with ⟨x0, hx0, hx0e⟩
  by_cases hc : btrim x0.description_fr ≠ "" ∧ btrim x0.listing_id ≠ ""
  case neg => rw [if_neg hc] at hx0e; cases hx0e
  rw [if_pos hc] at hx0e
  have hx0e2 := Option.some.inj hx0e
  refine ⟨e.2, ?_, ?_, ?_, ?_⟩
  · have : e = (k, e.2) := by
      rcases e with ⟨e1, e2⟩
      simp only [Prod.mk.injEq]
      exact ⟨hek, trivial⟩
    rw [← this]
    exact hemem
  · refine ⟨x0, hx0, ?_, ?_⟩
    · rw [show btrim x0.listing_id = e.1 from congrArg Prod.fst hx0e2, hek]
    · exact congrArg Prod.snd hx0e2
  · intro x hx hxk
    by_cases hxd : btrim x.description_fr = ""
    · rw [hxd]
      exact Nat.zero_le _
    · have hxsrc : (k, btrim x.description_fr) ∈ descSrc batch := by
        refine List.mem_filterMap.2 ⟨x, hx, ?_⟩
        rw [if_pos ⟨hxd, by rw [hxk]; exact hkne⟩, hxk]
      exact props.2.2.1 e hepick (k, btrim x.description_fr) hxsrc hek.symm
  · intro b2 hb2
    have heq := upsertByKey_eq_of_key hcntJ hjoin (k, b2) hb2 hek.symm
    exact congrArg Prod.snd heq

/-- C9 witness: descriptions of lengths 2 and 5 for one key — the 5-long body
is stored. -/
theorem longest_description_stored_witness :
    ∃ b, (("A", b) ∈ (upsert_descriptions
        [{ zipOnlyRow "" with listing_id := "A", description_fr := "ab" },
         { zipOnlyRow "" with listing_id := "A", description_fr := "abcde" }]
        { emptyState with listings := [{ blankListing with ext_id := "A" }] }).descs) ∧
      (∃ x ∈ [{ zipOnlyRow "" with listing_id := "A", description_fr := "ab" },
              { zipOnlyRow "" with listing_id := "A", description_fr := "abcde" }],
         btrim x.listing_id = "A" ∧ btrim x.description_fr = b) ∧
      (∀ x ∈ [{ zipOnlyRow "" with listing_id := "A", description_fr := "ab" },
              { zipOnlyRow "" with listing_id := "A", description_fr := "abcde" }],
         btrim x.listing_id = "A" → (btrim x.description_fr).length ≤ b.length) ∧
      (∀ b2, ("A", b2) ∈ (upsert_descriptions
          [{ zipOnlyRow "" with listing_id := "A", description_fr := "ab" },
           { zipOnlyRow "" with listing_id := "A", description_fr := "abcde" }]
          { emptyState with listings := [{ blankListing with ext_id := "A" }] }).descs →
        b2 = b) :=
  longest_description_stored
    [{ zipOnlyRow "" with listing_id := "A", description_fr := "ab" },
     { zipOnlyRow "" with listing_id := "A", description_fr := "abcde" }]
    { emptyState with listings := [{ blankListing with ext_id := "A" }] } "A"
    { zipOnlyRow "" with listing_id := "A", description_fr := "ab" }
    (List.mem_cons_self _ _) (by decide) (by decide) (by decide) (by decide)


lemma opensFor_append (a b : List Version) (L : String) :
    opensFor (a ++ b) L = opensFor a L ++ opensFor b L := by
  unfold opensFor
  rw [List.filter_append]

lemma countOpen_append (a b : List Version) (L : String) :
    countOpen (a ++ b) L = countOpen a L + countOpen b L := by
  unfold countOpen
  rw [opensFor_append, List.length_append]

lemma length_filter_map_le {α β : Type} (g : α → β) (p : β → Bool) (q : α → Bool)
    (l : List α) (h : ∀ a, p (g a) = true → q a = true) :
    ((l.map g).filter p).length ≤ (l.filter q).length := by
  induction l with
  | nil => simp
  | cons a t ih =>
    rw [List.map_cons, List.filter_cons, List.filter_cons]
    by_cases hga : p (g a) = true
    · rw [if_pos hga, if_pos (h a hga)]
      simpa using ih
    · rw [if_neg hga]
      by_cases ha : q a = true
      · rw [if_pos ha]
        exact le_trans ih (by simp)
      · rw [if_neg ha]
        exact ih

lemma countOpen_closeStep_le (delta : List Incoming) (db : List Version) (L : String) :
    countOpen (closeStep delta db) L ≤ countOpen db L := by
  unfold countOpen opensFor closeStep
  refine length_filter_map_le (closeOne delta) _ _ db ?_
  intro t ht
  rw [decide_eq_true_eq] at ht
  refine decide_eq_true ?_
  exact ⟨by rw [← closeOne_listing_id delta t]; exact ht.1, closeOne_open_imp ht.2⟩

lemma nodup_map_countKey_le_one {α κ : Type} [DecidableEq κ] {key : α → κ} {l : List α}
    (h : (l.map key).Nodup) (k : κ) : countKey key l k ≤ 1 := by
  induction l with
  | nil => simp [countKey]
  | cons a t ih =>
    rw [List.map_cons, List.nodup_cons] at h
    rw [countKey_cons]
    by_cases hk : key a = k
    · rw [if_pos hk]
      have hz : countKey key t k = 0 := by
        refine countKey_eq_zero.2 ?_
        intro e he hek
        exact h.1 (by rw [hk]; exact List.mem_map.2 ⟨e, he, hek⟩)
      omega
    · rw [if_neg hk]
      have := ih h.2
      omega

lemma countKey_delta_le_one {inc : List Incoming} {db : List Version}
    (hA : atMostOneOpen db) (hN : (inc.map Incoming.listing_id).Nodup) (L : String) :
    countKey Incoming.listing_id (stg_delta inc db) L ≤ 1 := by
  have hsub : List.Sublist (stg_delta inc db) inc := stg_delta_sublist_of_singletons
    (fun i _ => countOpen_le_one hA i.listing_id)
  exact le_trans (countKey_sublist_le _ hsub L) (nodup_map_countKey_le_one hN L)

lemma countOpen_insertedRows_le (delta : List Incoming) (db1 : List Version) (L : String) :
    countOpen (insertedRows delta db1) L ≤ countKey Incoming.listing_id delta L := by
  unfold countOpen opensFor insertedRows
  refine le_trans (length_filter_map_le mkOpenV _
    (fun d => decide (d.listing_id = L)) _ ?_) ?_
  · intro d hd
    rw [decide_eq_true_eq] at hd
    exact decide_eq_true hd.1
  · exact countKey_sublist_le _ (List.filter_sublist _) L


lemma countOpen_eq_zero {db : List Version} {L : String} :
    countOpen db L = 0 ↔ ∀ v ∈ db, ¬(v.listing_id = L ∧ v.valid_to = none) := by
  simp [countOpen, opensFor, List.length_eq_zero, List.filter_eq_nil_iff]

lemma countOpen_applySCD2_le_one {inc : List Incoming} {db : List Version}
    (hA : atMostOneOpen db) (hN : (inc.map Incoming.listing_id).Nodup) (L : String) :
    countOpen (applySCD2 inc db) L ≤ 1 := by
  by_cases he : (stg_delta inc db).isEmpty
  · rw [applySCD2_of_empty he]
    exact countOpen_le_one hA L
  · rw [applySCD2_of_not_empty he, countOpen_append]
    by_cases hex : ∃ t ∈ closeStep (stg_delta inc db) db, t.listing_id = L ∧ t.valid_to = none
    · have hz : countOpen (insertedRows (stg_delta inc db)
          (closeStep (stg_delta inc db) db)) L = 0 := by
        refine countOpen_eq_zero.2 ?_
        rintro v hv ⟨hvl, _⟩
        rcases mem_insertedRows.1 hv with ⟨d, _, hg, rfl⟩
        rcases hex with ⟨t, ht, htl, hto⟩
        exact hg t ht ⟨by rw [htl, ← hvl]; rfl, hto⟩
      have h1 := countOpen_closeStep_le (stg_delta inc db) db L
      have h2 := countOpen_le_one hA L
      omega
    · have hz : countOpen (closeStep (stg_delta inc db) db) L = 0 := by
        refine countOpen_eq_zero.2 ?_
        intro v hv hva
        exact hex ⟨v, hv, hva⟩
      have h1 := countOpen_insertedRows_le (stg_delta inc db)
        (closeStep (stg_delta inc db) db) L
      have h2 := countKey_delta_le_one hA hN L
      omega

lemma atMostOneOpen_applySCD2 {inc : List Incoming} {db : List Version}
    (hA : atMostOneOpen db) (hN : (inc.map Incoming.listing_id).Nodup) :
    atMostOneOpen (applySCD2 inc db) :=
  fun v _ => countOpen_applySCD2_le_one hA hN v.listing_id

/-- C1 (counterexample).  When one business key occurs twice in the batch fed
to the Delta Engine, the insert guard — evaluated against the pre-insert
snapshot — passes for both rows and the apply step leaves two open versions. -/
theorem scd2_duplicate_key_counterexample :
    2 ≤ countOpen (applySCD2
      [{ listing_id := "A", valid_from := 10, source_change_ts := none,
         fact := ⟨none, none, none, none, none, none, none, none⟩ },
       { listing_id := "A", valid_from := 10, source_change_ts := none,
         fact := ⟨none, none, none, none, none, none, none, none⟩ }] []) "A" ∧
    ¬ atMostOneOpen (applySCD2
      [{ listing_id := "A", valid_from := 10, source_change_ts := none,
         fact := ⟨none, none, none, none, none, none, none, none⟩ },
       { listing_id := "A", valid_from := 10, source_change_ts := none,
         fact := ⟨none, none, none, none, none, none, none, none⟩ }] []) := by
  decide

/-- C1 (amended).  Starting from an empty history and applying any sequence of
batches in each of which every listing has at most one incoming fact (the
contract guaranteed by the upstream dedup), every intermediate and final state
has at most one open version per listing. -/
theorem scd2_current_version_uniqueness
    (batches : List (List Incoming))
    (h : ∀ b ∈ batches, (b.map Incoming.listing_id).Nodup) :
    atMostOneOpen (applyAll batches) := by
  suffices haux : ∀ (bs : List (List Incoming)) (db : List Version), atMostOneOpen db →
      (∀ b ∈ bs, (b.map Incoming.listing_id).Nodup) →
      atMostOneOpen (bs.foldl (fun d b => applySCD2 b d) db) by
    exact haux batches [] (fun v hv => absurd hv (List.not_mem_nil v)) h
  intro bs
  induction bs with
  | nil =>
    intro db hdb _
    exact hdb
  | cons b t ih =>
    intro db hdb hbs
    exact ih _ (atMostOneOpen_applySCD2 hdb (hbs b (List.mem_cons_self b t)))
      (fun x hx => hbs x (List.mem_cons_of_mem b hx))

/-- C1 witness: the same single-fact batch applied twice from empty never
leaves two open versions. -/
theorem scd2_current_version_uniqueness_witness :
    atMostOneOpen (applyAll
      [[{ listing_id := "A", valid_from := 10, source_change_ts := none,
          fact := ⟨none, none, none, none, none, none, none, none⟩ }],
       [{ listing_id := "A", valid_from := 10, source_change_ts := none,
          fact := ⟨none, none, none, none, none, none, none, none⟩ }]]) :=
  scd2_current_version_uniqueness
    [[{ listing_id := "A", valid_from := 10, source_change_ts := none,
        fact := ⟨none, none, none, none, none, none, none, none⟩ }],
     [{ listing_id := "A", valid_from := 10, source_change_ts := none,
        fact := ⟨none, none, none, none, none, none, none, none⟩ }]]
    (by decide)


lemma two_le_length_filter {α : Type} {p : α → Bool} {l : List α} {x y : α}
    (hx : x ∈ l) (hy : y ∈ l) (hne : x ≠ y) (hpx : p x = true) (hpy : p y = true) :
    2 ≤ (l.filter p).length := by
  induction l with
  | nil => cases hx
  | cons a t ih =>
    rw [List.filter_cons]
    rcases List.mem_cons.1 hx with rfl | hx2
    · have hy2 : y ∈ t := by
        rcases List.mem_cons.1 hy with h | h
        · exact absurd h.symm hne
        · exact h
      rw [if_pos hpx, List.length_cons]
      have : y ∈ t.filter p := List.mem_filter.2 ⟨hy2, hpy⟩
      have := List.length_pos.2 (List.ne_nil_of_mem this)
      omega
    · rcases List.mem_cons.1 hy with rfl | hy2
      · rw [if_pos hpy, List.length_cons]
        have : x ∈ t.filter p := List.mem_filter.2 ⟨hx2, hpx⟩
        have := List.length_pos.2 (List.ne_nil_of_mem this)
        omega
      · have := ih hx2 hy2
        by_cases hpa : p a = true
        · rw [if_pos hpa, List.length_cons]
          omega
        · rw [if_neg hpa]
          omega

lemma open_version_unique {db : List Version} {t o : Version} (hA : atMostOneOpen db)
    (ht : t ∈ db) (ho : o ∈ db) (hl : t.listing_id = o.listing_id)
    (hto : t.valid_to = none) (hoo : o.valid_to = none) : t = o := by
  by_contra hne
  have h2 : 2 ≤ countOpen db o.listing_id := by
    refine two_le_length_filter ht ho hne ?_ ?_
    · exact decide_eq_true ⟨hl, hto⟩
    · exact decide_eq_true ⟨rfl, hoo⟩
  have := hA o ho
  omega

lemma versionsOf_append (a b : List Version) (L : String) :
    versionsOf (a ++ b) L = versionsOf a L ++ versionsOf b L := by
  unfold versionsOf
  rw [List.filter_append]

lemma versionsOf_closeStep (delta : List Incoming) (db : List Version) (L : String) :
    versionsOf (closeStep delta db) L = (versionsOf db L).map (closeOne delta) := by
  induction db with
  | nil => rfl
  | cons t ts ih =>
    show versionsOf (closeOne delta t :: closeStep delta ts) L = _
    unfold versionsOf at *
    rw [List.filter_cons, List.filter_cons]
    by_cases hl : t.listing_id = L
    · rw [if_pos (decide_eq_true (show (closeOne delta t).listing_id = L by
        rw [closeOne_listing_id]; exact hl)), if_pos (decide_eq_true hl)]
      rw [List.map_cons]
      exact congrArg _ ih
    · rw [if_neg (by rw [decide_eq_true_eq, closeOne_listing_id]; exact hl),
        if_neg (by rw [decide_eq_true_eq]; exact hl)]
      exact ih

lemma versionsOf_applySCD2_frame {inc : List Incoming} {db : List Version} {L : String}
    (hclose : ∀ t ∈ db, t.listing_id = L → closeOne (stg_delta inc db) t = t)
    (hins : ∀ d ∈ stg_delta inc db, d.listing_id = L →
      ∃ t ∈ closeStep (stg_delta inc db) db, t.listing_id = d.listing_id ∧ t.valid_to = none) :
    versionsOf (applySCD2 inc db) L = versionsOf db L := by
  by_cases he : (stg_delta inc db).isEmpty
  · rw [applySCD2_of_empty he]
  · rw [applySCD2_of_not_empty he, versionsOf_append, versionsOf_closeStep]
    have h1 : (versionsOf db L).map (closeOne (stg_delta inc db)) = versionsOf db L := by
      have := List.map_congr_left (l := versionsOf db L)
        (f := closeOne (stg_delta inc db)) (g := id) ?_
      · rw [this, List.map_id]
      · intro t ht
        rcases List.mem_filter.1 ht with ⟨htdb, htl⟩
        rw [decide_eq_true_eq] at htl
        exact hclose t htdb htl
    have h2 : versionsOf (insertedRows (stg_delta inc db)
        (closeStep (stg_delta inc db) db)) L = [] := by
      refine List.filter_eq_nil_iff.2 ?_
      intro v hv
      rw [decide_eq_true_eq]
      intro hvl
      rcases mem_insertedRows.1 hv with ⟨d, hd, hg, rfl⟩
      rcases hins d hd (by rw [← hvl]; rfl) with ⟨t, ht, htl, hto⟩
      exact hg t ht ⟨htl, hto⟩
    rw [h1, h2, List.append_nil]

/-- C10.  An incoming fact that is a delta but whose valid_from is strictly
earlier than the open version's valid_from is silently discarded: the close
guard fails, the insert guard then sees the still-open version, and the
listing's version rows are left exactly unchanged. -/
theorem out_of_order_fact_discarded
    (inc : List Incoming) (db : List Version) (i : Incoming) (o : Version)
    (hA : atMostOneOpen db) (hN : (inc.map Incoming.listing_id).Nodup)
    (hi : i ∈ inc) (ho : o ∈ db) (hol : o.listing_id = i.listing_id)
    (hoo : o.valid_to = none) (hdist : factDistinct o.fact i.fact = true)
    (hlt : i.valid_from < o.valid_from) :
    versionsOf (applySCD2 inc db) i.listing_id = versionsOf db i.listing_id := by
  have hofind : (stg_delta inc db).find? (closeMatch o) = none := by
    refine List.find?_eq_none.2 ?_
    intro d hd hm
    rw [closeMatch, decide_eq_true_eq] at hm
    have hdinc : d ∈ inc := (mem_stg_delta.1 hd).1
    have hdi : d = i := List.inj_on_of_nodup_map hN hdinc hi (by rw [hm.1, hol])
    rw [hdi] at hm
    omega
  have hsurv : closeOne (stg_delta inc db) o = o := closeOne_of_find_none hofind
  apply versionsOf_applySCD2_frame
  · intro t ht htl
    by_cases hto : t.valid_to = none
    · have hteq : t = o := open_version_unique hA ht ho (by rw [htl, hol]) hto hoo
      rw [hteq]
      exact hsurv
    · exact closeOne_closed hto
  · intro d hd hdl
    refine ⟨closeOne (stg_delta inc db) o, mem_closeStep.2 ⟨o, ho, rfl⟩, ?_, ?_⟩
    · rw [hsurv, hol, hdl]
    · rw [hsurv]
      exact hoo

/-- C10 witness: open version at 20, incoming delta at 5 — discarded. -/
theorem out_of_order_fact_discarded_witness :
    versionsOf (applySCD2
      [{ listing_id := "A", valid_from := 5, source_change_ts := none,
         fact := ⟨none, none, none, some 1, none, none, none, none⟩ }]
      [{ listing_id := "A", valid_from := 20, valid_to := none,
         fact := ⟨none, none, none, some 2, none, none, none, none⟩,
         source_change_ts := none }]) "A" =
    versionsOf
      [{ listing_id := "A", valid_from := 20, valid_to := none,
         fact := ⟨none, none, none, some 2, none, none, none, none⟩,
         source_change_ts := none }] "A" :=
  out_of_order_fact_discarded
    [{ listing_id := "A", valid_from := 5, source_change_ts := none,
       fact := ⟨none, none, none, some 1, none, none, none, none⟩ }]
    [{ listing_id := "A", valid_from := 20, valid_to := none,
       fact := ⟨none, none, none, some 2, none, none, none, none⟩,
       source_change_ts := none }]
    { listing_id := "A", valid_from := 5, source_change_ts := none,
      fact := ⟨none, none, none, some 1, none, none, none, none⟩ }
    { listing_id := "A", valid_from := 20, valid_to := none,
      fact := ⟨none, none, none, some 2, none, none, none, none⟩,
      source_change_ts := none }
    (by decide) (by decide) (List.mem_singleton.2 rfl) (List.mem_singleton.2 rfl)
    rfl rfl (by decide) (by decide)


/-- C5.  An incoming fact is a delta iff its listing has no open version or
some historized field differs from the open version under null-aware
inequality; an incoming tuple field-wise identical to the open version is not
a delta and leaves the listing's version rows exactly unchanged. -/
theorem delta_decision_characterisation (inc : List Incoming) (db : List Version) :
    (∀ i, i ∈ stg_delta inc db ↔
       i ∈ inc ∧ ((¬∃ c ∈ db, c.listing_id = i.listing_id ∧ c.valid_to = none) ∨
         ∃ c ∈ db, c.listing_id = i.listing_id ∧ c.valid_to = none ∧
           factDistinct c.fact i.fact = true)) ∧
    (∀ i ∈ inc, ∀ c ∈ db, atMostOneOpen db → (inc.map Incoming.listing_id).Nodup →
       c.listing_id = i.listing_id → c.valid_to = none → c.fact = i.fact →
       versionsOf (applySCD2 inc db) i.listing_id = versionsOf db i.listing_id) := by
  constructor
  · intro i
    rw [mem_stg_delta]
    constructor
    · rintro ⟨hi, h | ⟨c, hc, hd⟩⟩
      · refine ⟨hi, Or.inl ?_⟩
        rintro ⟨c, hc, hcl, hco⟩
        exact (opensFor_eq_nil.1 h) c hc ⟨hcl, hco⟩
      · rcases mem_opensFor.1 hc with ⟨hcdb, hcl, hco⟩
        exact ⟨hi, Or.inr ⟨c, hcdb, hcl, hco, hd⟩⟩
    · rintro ⟨hi, h | ⟨c, hc, hcl, hco, hd⟩⟩
      · refine ⟨hi, Or.inl (opensFor_eq_nil.2 ?_)⟩
        rintro c hc ⟨hcl, hco⟩
        exact h ⟨c, hc, hcl, hco⟩
      · exact ⟨hi, Or.inr ⟨c, mem_opensFor.2 ⟨hc, hcl, hco⟩, hd⟩⟩
  · intro i hi c hc hA hN hcl hco hfact
    have hnid : i ∉ stg_delta inc db := by
      intro hmem
      rcases (mem_stg_delta.1 hmem).2 with h | ⟨c2, hc2, hd2⟩
      · rw [opensFor_eq_nil] at h
        exact h c hc ⟨hcl, hco⟩
      · rcases mem_opensFor.1 hc2 with ⟨hc2db, hc2l, hc2o⟩
        have : c2 = c := open_version_unique hA hc2db hc (by rw [hc2l, hcl]) hc2o hco
        rw [this, hfact] at hd2
        rw [factDistinct_self] at hd2
        cases hd2
    have hnod : ∀ d ∈ stg_delta inc db, d.listing_id ≠ i.listing_id := by
      intro d hd he
      have hdinc : d ∈ inc := (mem_stg_delta.1 hd).1
      have : d = i := List.inj_on_of_nodup_map hN hdinc hi he
      rw [this] at hd
      exact hnid hd
    apply versionsOf_applySCD2_frame
    · intro t ht htl
      refine closeOne_of_find_none (List.find?_eq_none.2 ?_)
      intro d hd hm
      rw [closeMatch, decide_eq_true_eq] at hm
      exact hnod d hd (by rw [hm.1, htl])
    · intro d hd hdl
      exact absurd hdl (hnod d hd)

/-- C5 witness: an incoming tuple identical to the open version is not a delta
and produces no write. -/
theorem delta_decision_characterisation_witness :
    versionsOf (applySCD2
      [{ listing_id := "A", valid_from := 30, source_change_ts := none,
         fact := ⟨none, none, none, some 2, none, none, none, none⟩ }]
      [{ listing_id := "A", valid_from := 20, valid_to := none,
         fact := ⟨none, none, none, some 2, none, none, none, none⟩,
         source_change_ts := none }]) "A" =
    versionsOf
      [{ listing_id := "A", valid_from := 20, valid_to := none,
         fact := ⟨none, none, none, some 2, none, none, none, none⟩,
         source_change_ts := none }] "A" :=
  (delta_decision_characterisation
      [{ listing_id := "A", valid_from := 30, source_change_ts := none,
         fact := ⟨none, none, none, some 2, none, none, none, none⟩ }]
      [{ listing_id := "A", valid_from := 20, valid_to := none,
         fact := ⟨none, none, none, some 2, none, none, none, none⟩,
         source_change_ts := none }]).2
    { listing_id := "A", valid_from := 30, source_change_ts := none,
      fact := ⟨none, none, none, some 2, none, none, none, none⟩ }
    (List.mem_singleton.2 rfl)
    { listing_id := "A", valid_from := 20, valid_to := none,
      fact := ⟨none, none, none, some 2, none, none, none, none⟩,
      source_change_ts := none }
    (List.mem_singleton.2 rfl) (by decide) (by decide) rfl rfl rfl


lemma closeOne_cases (delta : List Incoming) (t : Version) :
    closeOne delta t = t ∨
      (t.valid_to = none ∧ ∃ d ∈ delta, d.listing_id = t.listing_id ∧
        t.valid_from ≤ d.valid_from ∧ closeOne delta t = { t with valid_to := some d.valid_from }) := by
  by_cases hto : t.valid_to = none
  · cases hf : delta.find? (closeMatch t) with
    | none => exact Or.inl (closeOne_of_find_none hf)
    | some d =>
      have hm := List.find?_some hf
      rw [closeMatch, decide_eq_true_eq] at hm
      exact Or.inr ⟨hto, d, List.mem_of_find?_eq_some hf, hm.1, hm.2,
        closeOne_of_find_some hto hf⟩
  · exact Or.inl (closeOne_closed hto)

lemma countOpen_cons (v : Version) (vs : List Version) (L : String) :
    countOpen (v :: vs) L =
      (if v.listing_id = L ∧ v.valid_to = none then 1 else 0) + countOpen vs L := by
  by_cases h : v.listing_id = L ∧ v.valid_to = none <;>
    simp [countOpen, opensFor, List.filter_cons, h, Nat.add_comm]

lemma pairwise_not_both_open {db : List Version} (hA : atMostOneOpen db) :
    List.Pairwise (fun a b =>
      ¬(a.listing_id = b.listing_id ∧ a.valid_to = none ∧ b.valid_to = none)) db := by
  induction db with
  | nil => exact List.Pairwise.nil
  | cons v vs ih =>
    refine List.Pairwise.cons ?_ (ih ?_)
    · rintro w hw ⟨hl, hvo, hwo⟩
      have h1 := hA v (List.mem_cons_self v vs)
      rw [countOpen_cons, if_pos ⟨rfl, hvo⟩] at h1
      have h2 : 1 ≤ countOpen vs v.listing_id := by
        have : w ∈ opensFor vs v.listing_id :=
          mem_opensFor.2 ⟨hw, hl.symm, hwo⟩
        exact List.length_pos.2 (List.ne_nil_of_mem this)
      omega
    · intro u hu
      have h1 := hA u (List.mem_cons_of_mem v hu)
      rw [countOpen_cons] at h1
      omega

lemma vDisj_symm {v w : Version} (h : vDisj v w) : vDisj w v := by
  intro hl
  rcases h hl.symm with h2 | h2
  · exact Or.inr h2
  · exact Or.inl h2


lemma INVdb_applySCD2 {inc : List Incoming} {db : List Version}
    (hI : INVdb db) (hN : (inc.map Incoming.listing_id).Nodup) :
    INVdb (applySCD2 inc db) := by
  obtain ⟨hA, hB, hP, hL, hO⟩ := hI
  by_cases he : (stg_delta inc db).isEmpty
  · rw [applySCD2_of_empty he]
    exact ⟨hA, hB, hP, hL, hO⟩
  rw [applySCD2_of_not_empty he]
  have hΔsub : List.Sublist (stg_delta inc db) inc := stg_delta_sublist_of_singletons
    (fun i _ => countOpen_le_one hA i.listing_id)
  have hΔN : ((stg_delta inc db).map Incoming.listing_id).Nodup :=
    hN.sublist (hΔsub.map Incoming.listing_id)
  have uniqΔ : ∀ d ∈ stg_delta inc db, ∀ d2 ∈ stg_delta inc db,
      d.listing_id = d2.listing_id → d = d2 :=
    fun d hd d2 hd2 hl => List.inj_on_of_nodup_map hΔN hd hd2 hl
  -- an open version of a listing whose delta got inserted must have been
  -- closed by the close step, with the guard giving its bound
  have hModClose : ∀ d ∈ stg_delta inc db,
      (∀ x ∈ closeStep (stg_delta inc db) db,
        ¬(x.listing_id = d.listing_id ∧ x.valid_to = none)) →
      ∀ o ∈ db, o.listing_id = d.listing_id → o.valid_to = none →
        o.valid_from ≤ d.valid_from := by
    intro d hd hg o ho hol hoo
    rcases closeOne_cases (stg_delta inc db) o with hco | ⟨_, d2, hd2, hd2l, hle, _⟩
    · exfalso
      refine hg (closeOne (stg_delta inc db) o) (mem_closeStep.2 ⟨o, ho, rfl⟩) ?_
      rw [hco]
      exact ⟨hol, hoo⟩
    · have hdd : d2 = d := uniqΔ d2 hd2 d hd (by rw [hd2l, hol])
      rw [hdd] at hle
      exact hle
  -- a closed version of a listing whose delta got inserted ends no later than
  -- the inserted valid_from
  have hClosedBound : ∀ d ∈ stg_delta inc db,
      (∀ x ∈ closeStep (stg_delta inc db) db,
        ¬(x.listing_id = d.listing_id ∧ x.valid_to = none)) →
      ∀ t ∈ db, t.listing_id = d.listing_id → t.valid_to ≠ none →
        toE t.valid_to ≤ (d.valid_from : WithTop Nat) := by
    intro d hd hg t ht htl htn
    rcases hO t ht with ⟨o, ho, hol, hoo⟩
    have h1 := hL o ho t ht hoo hol.symm htn
    have h2 := hModClose d hd hg o ho (by rw [hol, htl]) hoo
    calc toE t.valid_to ≤ (o.valid_from : WithTop Nat) := h1
      _ ≤ (d.valid_from : WithTop Nat) := WithTop.coe_le_coe.2 h2
  refine ⟨?_, ?_, ?_, ?_, ?_⟩
  -- at most one open version per listing
  · have h := atMostOneOpen_applySCD2 hA hN
    rw [applySCD2_of_not_empty he] at h
    exact h
  -- no negative-length interval
  · intro v hv
    rcases List.mem_append.1 hv with hv | hv
    · rcases mem_closeStep.1 hv with ⟨t, ht, rfl⟩
      rcases closeOne_cases (stg_delta inc db) t with hco | ⟨hto, d, hd, hdl, hle, hceq⟩
      · rw [hco]
        exact hB t ht
      · rw [hceq]
        exact WithTop.coe_le_coe.2 hle
    · rcases mem_insertedRows.1 hv with ⟨d, hd, hg, rfl⟩
      exact le_top
  -- pairwise interval disjointness
  · rw [List.pairwise_append]
    refine ⟨?_, ?_, ?_⟩
    · show List.Pairwise vDisj ((db.map (closeOne (stg_delta inc db))))
      rw [List.pairwise_map]
      refine (hP.and (pairwise_not_both_open hA)).imp ?_
      rintro a b ⟨hab, hnboth⟩ hl
      rw [closeOne_listing_id, closeOne_listing_id] at hl
      rcases closeOne_cases (stg_delta inc db) a with hca | ⟨hao, da, hda, hdal, halee, hcaeq⟩
      · rcases closeOne_cases (stg_delta inc db) b with hcb | ⟨hbo, db2, hdb2, hdb2l, hblee, hcbeq⟩
        · rw [hca, hcb]
          exact hab hl
        · rw [hca, hcbeq]
          rcases hab hl with h2 | h2
          · exact Or.inl h2
          · exfalso
            rw [hbo] at h2
            exact WithTop.coe_ne_top (top_le_iff.1 h2)
      · rcases closeOne_cases (stg_delta inc db) b with hcb | ⟨hbo, db2, hdb2, hdb2l, hblee, hcbeq⟩
        · rw [hcaeq, hcb]
          rcases hab hl with h2 | h2
          · exfalso
            rw [hao] at h2
            exact WithTop.coe_ne_top (top_le_iff.1 h2)
          · exact Or.inr h2
        · exact absurd ⟨hl, hao, hbo⟩ hnboth
    · show List.Pairwise vDisj (insertedRows (stg_delta inc db)
        (closeStep (stg_delta inc db) db))
      have h1 : List.Pairwise (fun x y : Incoming => x.listing_id ≠ y.listing_id)
          (stg_delta inc db) := List.pairwise_map.1 hΔN
      unfold insertedRows
      rw [List.pairwise_map]
      exact (h1.filter _).imp (fun hne hl => absurd hl hne)
    · intro v hv n hn
      rcases mem_closeStep.1 hv with ⟨t, ht, rfl⟩
      rcases mem_insertedRows.1 hn with ⟨d, hd, hg, rfl⟩
      intro hl
      rw [closeOne_listing_id] at hl
      rcases closeOne_cases (stg_delta inc db) t with hct | ⟨hto, d2, hd2, hd2l, hlee, hcteq⟩
      · by_cases hto : t.valid_to = none
        · exact absurd ⟨by rw [closeOne_listing_id]; exact hl, by rw [hct]; exact hto⟩
            (hg (closeOne (stg_delta inc db) t) (mem_closeStep.2 ⟨t, ht, rfl⟩))
        · rw [hct]
          exact Or.inl (hClosedBound d hd hg t ht hl hto)
      · have hdd : d2 = d := uniqΔ d2 hd2 d hd (by rw [hd2l, hl]; rfl)
        rw [hcteq, hdd]
        exact Or.inl (le_refl _)
  -- every closed version ends no later than the open one starts
  · intro v hv w hw hvo hwl hwn
    rcases List.mem_append.1 hv with hv1 | hv1
    · rcases mem_closeStep.1 hv1 with ⟨t, ht, rfl⟩
      have hopen := closeOne_open_iff.1 hvo
      have hveq : closeOne (stg_delta inc db) t = t := closeOne_of_find_none hopen.2
      rcases List.mem_append.1 hw with hw1 | hw1
      · rcases mem_closeStep.1 hw1 with ⟨u, hu, rfl⟩
        have hul : u.listing_id = t.listing_id := by
          rw [← closeOne_listing_id (stg_delta inc db) u,
            ← closeOne_listing_id (stg_delta inc db) t]
          exact hwl
        rcases closeOne_cases (stg_delta inc db) u with hcu | ⟨huo, du, hdu, hdul, hulee, hcueq⟩
        · rw [hcu] at hwn ⊢
          rw [hveq]
          exact hL t ht u hu hopen.1 hul hwn
        · exfalso
          have hut : u = t := open_version_unique hA hu ht hul huo hopen.1
          rw [hut, hveq] at hcueq
          have := congrArg Version.valid_to hcueq
          rw [hopen.1] at this
          cases this
      · rcases mem_insertedRows.1 hw1 with ⟨d, hd, hg, rfl⟩
        exact absurd rfl hwn
    · rcases mem_insertedRows.1 hv1 with ⟨d, hd, hg, rfl⟩
      rcases List.mem_append.1 hw with hw1 | hw1
      · rcases mem_closeStep.1 hw1 with ⟨u, hu, rfl⟩
        have hul : u.listing_id = d.listing_id := by
          rw [← closeOne_listing_id (stg_delta inc db) u]
          exact hwl
        rcases closeOne_cases (stg_delta inc db) u with hcu | ⟨huo, du, hdu, hdul, hulee, hcueq⟩
        · rw [hcu] at hwn ⊢
          exact hClosedBound d hd hg u hu hul hwn
        · have hdd : du = d := uniqΔ du hdu d hd (by rw [hdul, hul])
          rw [hcueq, hdd]
          exact le_refl _
      · rcases mem_insertedRows.1 hw1 with ⟨d2, hd2, hg2, rfl⟩
        exact absurd rfl hwn
  -- a listing with any version has an open one
  · intro v hv
    rcases List.mem_append.1 hv with hv1 | hv1
    · rcases mem_closeStep.1 hv1 with ⟨t, ht, rfl⟩
      rcases hO t ht with ⟨o, ho, hol, hoo⟩
      rcases closeOne_cases (stg_delta inc db) o with hco | ⟨hoo2, d, hd, hdl, holee, hcoeq⟩
      · refine ⟨closeOne (stg_delta inc db) o,
          List.mem_append_left _ (mem_closeStep.2 ⟨o, ho, rfl⟩), ?_, ?_⟩
        · rw [hco, closeOne_listing_id]
          exact hol
        · rw [hco]
          exact hoo
      · have hgu : ∀ x ∈ closeStep (stg_delta inc db) db,
            ¬(x.listing_id = d.listing_id ∧ x.valid_to = none) := by
          rintro x hx ⟨hxl, hxo⟩
          rcases mem_closeStep.1 hx with ⟨u, hu, rfl⟩
          have huo : u.valid_to = none := closeOne_open_imp hxo
          have hul : u.listing_id = o.listing_id := by
            rw [← closeOne_listing_id (stg_delta inc db) u, hxl]
            exact hdl
          have huoeq : u = o := open_version_unique hA hu ho hul huo hoo
          rw [huoeq, hcoeq] at hxo
          cases hxo
        refine ⟨mkOpenV d, List.mem_append_right _ (mem_insertedRows.2 ⟨d, hd, hgu, rfl⟩),
          ?_, rfl⟩
        show d.listing_id = (closeOne (stg_delta inc db) t).listing_id
        rw [closeOne_listing_id, hdl, hol]
    · rcases mem_insertedRows.1 hv1 with ⟨d, hd, hg, rfl⟩
      exact ⟨mkOpenV d, List.mem_append_right _ (mem_insertedRows.2 ⟨d, hd, hg, rfl⟩),
        rfl, rfl⟩


lemma INVdb_nil : INVdb [] := by
  refine ⟨?_, ?_, List.Pairwise.nil, ?_, ?_⟩ <;>
    intro v hv <;> exact absurd hv (List.not_mem_nil v)

lemma INVdb_applyAll (batches : List (List Incoming))
    (h : ∀ b ∈ batches, (b.map Incoming.listing_id).Nodup) :
    INVdb (applyAll batches) := by
  suffices haux : ∀ (bs : List (List Incoming)) (db : List Version), INVdb db →
      (∀ b ∈ bs, (b.map Incoming.listing_id).Nodup) →
      INVdb (bs.foldl (fun d b => applySCD2 b d) db) by
    exact haux batches [] INVdb_nil h
  intro bs
  induction bs with
  | nil =>
    intro db hdb _
    exact hdb
  | cons b t ih =>
    intro db hdb hbs
    exact ih _ (INVdb_applySCD2 hdb (hbs b (List.mem_cons_self b t)))
      (fun x hx => hbs x (List.mem_cons_of_mem b hx))

/-- C3 (counterexample).  The interval invariants do not survive every load
sequence: a single batch carrying the same business key twice (reachable, cf.
the raw-vs-trimmed dedup mismatch) leaves two open versions `[10, ∞)` of
listing A, whose intervals overlap. -/
theorem scd2_interval_overlap_counterexample :
    ¬ List.Pairwise vDisj (applyAll
      [[{ listing_id := "A", valid_from := 10, source_change_ts := none,
          fact := ⟨none, none, none, none, none, none, none, none⟩ },
        { listing_id := "A", valid_from := 10, source_change_ts := none,
          fact := ⟨none, none, none, none, none, none, none, none⟩ }]]) := by
  decide

/-- C3 (amended).  Over any sequence of batches with one incoming fact per
listing each (the contract established by the upstream dedup; without it the
invariants fail, see the overlap counterexample), the version table satisfies:
no negative-length interval (valid_from ≤ valid_to, so a close never assigns
valid_to below valid_from), pairwise interval disjointness per listing, and the
version with the later valid_from starts no earlier than the other version
ends. -/
theorem scd2_interval_invariants (batches : List (List Incoming))
    (h : ∀ b ∈ batches, (b.map Incoming.listing_id).Nodup) :
    boundsOK (applyAll batches) ∧ List.Pairwise vDisj (applyAll batches) ∧
    (∀ v ∈ applyAll batches, ∀ w ∈ applyAll batches, v.listing_id = w.listing_id →
       v.valid_from < w.valid_from → toE v.valid_to ≤ (w.valid_from : WithTop Nat)) := by
  obtain ⟨hA2, hB2, hP2, hL2, hO2⟩ := INVdb_applyAll batches h
  refine ⟨hB2, hP2, ?_⟩
  intro v hv w hw hlid hvf
  have hne : v ≠ w := by
    intro hvw
    rw [hvw] at hvf
    omega
  have hdisj : vDisj v w :=
    List.Pairwise.forall (fun x y hxy => vDisj_symm hxy) hP2 hv hw hne
  rcases hdisj hlid with h2 | h2
  · exact h2
  · exfalso
    have hb := hB2 w hw
    have h3 : (w.valid_from : WithTop Nat) ≤ (v.valid_from : WithTop Nat) := le_trans hb h2
    have h4 : w.valid_from ≤ v.valid_from := by exact_mod_cast h3
    omega

/-- C3 witness: two successive single-fact batches produce a well-formed
interval history. -/
theorem scd2_interval_invariants_witness :
    boundsOK (applyAll
      [[{ listing_id := "A", valid_from := 10, source_change_ts := none,
          fact := ⟨none, none, none, some 1, none, none, none, none⟩ }],
       [{ listing_id := "A", valid_from := 20, source_change_ts := none,
          fact := ⟨none, none, none, some 2, none, none, none, none⟩ }]]) ∧
    List.Pairwise vDisj (applyAll
      [[{ listing_id := "A", valid_from := 10, source_change_ts := none,
          fact := ⟨none, none, none, some 1, none, none, none, none⟩ }],
       [{ listing_id := "A", valid_from := 20, source_change_ts := none,
          fact := ⟨none, none, none, some 2, none, none, none, none⟩ }]]) ∧
    (∀ v ∈ applyAll
      [[{ listing_id := "A", valid_from := 10, source_change_ts := none,
          fact := ⟨none, none, none, some 1, none, none, none, none⟩ }],
       [{ listing_id := "A", valid_from := 20, source_change_ts := none,
          fact := ⟨none, none, none, some 2, none, none, none, none⟩ }]],
      ∀ w ∈ applyAll
      [[{ listing_id := "A", valid_from := 10, source_change_ts := none,
          fact := ⟨none, none, none, some 1, none, none, none, none⟩ }],
       [{ listing_id := "A", valid_from := 20, source_change_ts := none,
          fact := ⟨none, none, none, some 2, none, none, none, none⟩ }]],
      v.listing_id = w.listing_id → v.valid_from < w.valid_from →
        toE v.valid_to ≤ (w.valid_from : WithTop Nat)) :=
  scd2_interval_invariants
    [[{ listing_id := "A", valid_from := 10, source_change_ts := none,
        fact := ⟨none, none, none, some 1, none, none, none, none⟩ }],
     [{ listing_id := "A", valid_from := 20, source_change_ts := none,
        fact := ⟨none, none, none, some 2, none, none, none, none⟩ }]]
    (by decide)


lemma find?_unique {α : Type} {p : α → Bool} {l : List α} {x : α}
    (hx : x ∈ l) (hpx : p x = true) (huniq : ∀ y ∈ l, p y = true → y = x) :
    l.find? p = some x := by
  induction l with
  | nil => cases hx
  | cons a t ih =>
    by_cases hpa : p a = true
    · rw [List.find?_cons_of_pos _ hpa]
      rw [huniq a (List.mem_cons_self a t) hpa]
    · rw [List.find?_cons_of_neg _ hpa]
      rcases List.mem_cons.1 hx with rfl | hx2
      · exact absurd hpx hpa
      · exact ih hx2 (fun y hy hpy => huniq y (List.mem_cons_of_mem a hy) hpy)

lemma nodup_map_of_countKey_le_one {α κ : Type} [DecidableEq κ] {key : α → κ} {l : List α}
    (h : ∀ k, countKey key l k ≤ 1) : (l.map key).Nodup := by
  induction l with
  | nil => exact List.nodup_nil
  | cons a t ih =>
    rw [List.map_cons, List.nodup_cons]
    constructor
    · intro hmem
      rcases List.mem_map.1 hmem with ⟨e, he, hek⟩
      have h2 := h (key a)
      rw [countKey_cons, if_pos rfl] at h2
      have h3 := one_le_countKey_of_mem he hek
      omega
    · refine ih ?_
      intro k
      have h2 := h k
      rw [countKey_cons] at h2
      omega

lemma countKey_filterMap_le {α β κ : Type} [DecidableEq κ] {f : α → Option β}
    {keyb : β → κ} {keya : α → κ} (hf : ∀ a b, f a = some b → keyb b = keya a)
    (l : List α) (k : κ) :
    countKey keyb (l.filterMap f) k ≤ countKey keya l k := by
  induction l with
  | nil => simp [countKey]
  | cons a t ih =>
    rw [List.filterMap_cons, countKey_cons]
    cases hfa : f a with
    | none =>
      show countKey keyb (t.filterMap f) k ≤ _
      have := ih
      omega
    | some b =>
      show countKey keyb (b :: t.filterMap f) k ≤ _
      rw [countKey_cons, hf a b hfa]
      have := ih
      omega

lemma countKey_map_upsert {α κ : Type} [DecidableEq κ] (key : α → κ) (rows t : List α)
    (k : κ) :
    countKey key (t.map (fun old => ((rows.find? (fun r =>
      decide (key r = key old))).getD old))) k = countKey key t k := by
  induction t with
  | nil => rfl
  | cons a s ih =>
    rw [List.map_cons, countKey_cons, countKey_cons, ih]
    have hk : key ((rows.find? (fun r => decide (key r = key a))).getD a) = key a := by
      cases hf : rows.find? (fun r => decide (key r = key a)) with
      | none => rw [Option.getD_none]
      | some y =>
        rw [Option.getD_some]
        have := List.find?_some hf
        rw [decide_eq_true_eq] at this
        exact this
    rw [hk]

lemma countKey_upsertByKey_le_one {α κ : Type} [DecidableEq κ] {key : α → κ}
    {rows t : List α} (ht : ∀ k, countKey key t k ≤ 1)
    (hrows : ∀ k, countKey key rows k ≤ 1) (k : κ) :
    countKey key (upsertByKey key rows t) k ≤ 1 := by
  unfold upsertByKey
  rw [countKey_append, countKey_map_upsert]
  by_cases hz : countKey key t k = 0
  · rw [hz]
    have h1 : countKey key (rows.filter (fun r => decide (∀ old ∈ t, key old ≠ key r))) k ≤
        countKey key rows k := countKey_sublist_le _ (List.filter_sublist _) k
    have := hrows k
    omega
  · have h1 : countKey key (rows.filter (fun r => decide (∀ old ∈ t, key old ≠ key r))) k = 0 := by
      refine countKey_eq_zero.2 ?_
      intro e he hek
      rcases List.mem_filter.1 he with ⟨_, hcond⟩
      rw [decide_eq_true_eq] at hcond
      have h2 : 1 ≤ countKey key t k := Nat.one_le_iff_ne_zero.2 hz
      rcases hx : t.filter (fun e => decide (key e = k)) with _ | ⟨old0, rest⟩
      · rw [countKey, hx] at h2
        cases h2
      · have hmem : old0 ∈ t.filter (fun e => decide (key e = k)) := by
          rw [hx]
          exact List.mem_cons_self old0 rest
        rcases List.mem_filter.1 hmem with ⟨hot, hok⟩
        rw [decide_eq_true_eq] at hok
        exact hcond old0 hot (by rw [hok, hek])
    have := ht k
    omega

lemma upsertByKey_idempotent {α κ : Type} [DecidableEq κ] {key : α → κ} {rows t : List α}
    (hcnt : ∀ k, countKey key rows k ≤ 1) :
    upsertByKey key rows (upsertByKey key rows t) = upsertByKey key rows t := by
  have hfix : ∀ x ∈ upsertByKey key rows t,
      ((rows.find? (fun r => decide (key r = key x))).getD x) = x := by
    intro x hx
    unfold upsertByKey at hx
    rcases List.mem_append.1 hx with hx | hx
    · rcases List.mem_map.1 hx with ⟨old, holdt, rfl⟩
      cases hf : rows.find? (fun r => decide (key r = key old)) with
      | none =>
        simp only [hf, Option.getD_none]
      | some y =>
        simp only [hf, Option.getD_some]
        have hymem := List.mem_of_find?_eq_some hf
        have : rows.find? (fun r => decide (key r = key y)) = some y := by
          refine find?_unique hymem (decide_eq_true rfl) ?_
          intro z hz hpz
          rw [decide_eq_true_eq] at hpz
          by_contra hne
          have h2 := two_le_countKey hz hymem hne hpz rfl
          have := hcnt (key y)
          omega
        rw [this, Option.getD_some]
    · rcases List.mem_filter.1 hx with ⟨hxr, _⟩
      have : rows.find? (fun r => decide (key r = key x)) = some x := by
        refine find?_unique hxr (decide_eq_true rfl) ?_
        intro z hz hpz
        rw [decide_eq_true_eq] at hpz
        by_contra hne
        have h2 := two_le_countKey hz hxr hne hpz rfl
        have := hcnt (key x)
        omega
      rw [this, Option.getD_some]
  have hmap : (upsertByKey key rows t).map (fun old => ((rows.find? (fun r =>
      decide (key r = key old))).getD old)) = upsertByKey key rows t := by
    have := List.map_congr_left (l := upsertByKey key rows t)
      (f := fun old => ((rows.find? (fun r => decide (key r = key old))).getD old))
      (g := id) hfix
    rw [this, List.map_id]
  have hfil : rows.filter (fun r =>
      decide (∀ old ∈ upsertByKey key rows t, key old ≠ key r)) = [] := by
    refine List.filter_eq_nil_iff.2 ?_
    intro r hr hcond
    rw [decide_eq_true_eq] at hcond
    exact hcond r (mem_upsertByKey hcnt hr) rfl
  show (upsertByKey key rows t).map _ ++ _ = _
  rw [hmap, hfil, List.append_nil]

lemma resolveRow_ext_id {s : LState} {r : Row} {l : Listing}
    (h : resolveRow s r = some l) : l.ext_id = btrim r.listing_id := by
  unfold resolveRow at h
  by_cases hc : btrim r.listing_id ≠ "" ∧
      btrim r.transaction_type ∈ s.tts ∧
      btrim r.item_type ∈ s.its ∧
      (btrim r.item_type, btrim r.item_subtype) ∈ s.ists ∧
      btrim r.city ∈ s.cities ∧
      (∃ z, norm_zip_5 r.zipcode = some z ∧ z ∈ s.zips ∧ (btrim r.city, z) ∈ s.locs)
  · rw [if_pos hc] at h
    have := Option.some.inj h
    rw [← this]
  · rw [if_neg hc] at h
    cases h


lemma applySCD2_open_after {inc : List Incoming} {db : List Version}
    (hA : atMostOneOpen db) (hN : (inc.map Incoming.listing_id).Nodup)
    {i : Incoming} (hi : i ∈ inc) :
    ∃ o ∈ applySCD2 inc db, o.listing_id = i.listing_id ∧ o.valid_to = none ∧
      (o.fact = i.fact ∨
        (o ∈ db ∧ factDistinct o.fact i.fact = true ∧ i.valid_from < o.valid_from)) := by
  rcases hcs : opensFor db i.listing_id with _ | ⟨c, rest⟩
  · -- no open version: first sighting, the delta inserts a fresh open version
    have hiD : i ∈ stg_delta inc db := mem_stg_delta.2 ⟨hi, Or.inl hcs⟩
    have hne : ¬(stg_delta inc db).isEmpty := by
      rw [List.isEmpty_iff]
      intro h
      rw [h] at hiD
      cases hiD
    rw [applySCD2_of_not_empty hne]
    have hguard : ∀ x ∈ closeStep (stg_delta inc db) db,
        ¬(x.listing_id = i.listing_id ∧ x.valid_to = none) := by
      rintro x hx ⟨hxl, hxo⟩
      rcases mem_closeStep.1 hx with ⟨t, ht, rfl⟩
      have hto : t.valid_to = none := closeOne_open_imp hxo
      have htl : t.listing_id = i.listing_id := by
        rw [← closeOne_listing_id (stg_delta inc db) t]
        exact hxl
      have : t ∈ opensFor db i.listing_id := mem_opensFor.2 ⟨ht, htl, hto⟩
      rw [hcs] at this
      cases this
    exact ⟨mkOpenV i, List.mem_append_right _ (mem_insertedRows.2 ⟨i, hiD, hguard, rfl⟩),
      rfl, rfl, Or.inl rfl⟩
  · have hc : c ∈ opensFor db i.listing_id := by
      rw [hcs]
      exact List.mem_cons_self c rest
    rcases mem_opensFor.1 hc with ⟨hcdb, hcl, hco⟩
    by_cases hdist : factDistinct c.fact i.fact = true
    · have hiD : i ∈ stg_delta inc db := mem_stg_delta.2 ⟨hi, Or.inr ⟨c, hc, hdist⟩⟩
      have hne : ¬(stg_delta inc db).isEmpty := by
        rw [List.isEmpty_iff]
        intro h
        rw [h] at hiD
        cases hiD
      by_cases hle : c.valid_from ≤ i.valid_from
      · -- the open version is closed and the delta inserts a fresh open one
        rw [applySCD2_of_not_empty hne]
        have hfind : (stg_delta inc db).find? (closeMatch c) = some i := by
          refine find?_unique hiD ?_ ?_
          · rw [closeMatch]
            exact decide_eq_true ⟨hcl.symm, hle⟩
          · intro y hy hpy
            rw [closeMatch, decide_eq_true_eq] at hpy
            exact List.inj_on_of_nodup_map hN ((mem_stg_delta.1 hy).1) hi
              (by rw [hpy.1, hcl])
        have hguard : ∀ x ∈ closeStep (stg_delta inc db) db,
            ¬(x.listing_id = i.listing_id ∧ x.valid_to = none) := by
          rintro x hx ⟨hxl, hxo⟩
          rcases mem_closeStep.1 hx with ⟨t, ht, rfl⟩
          have hto : t.valid_to = none := closeOne_open_imp hxo
          have htl : t.listing_id = i.listing_id := by
            rw [← closeOne_listing_id (stg_delta inc db) t]
            exact hxl
          have htc : t = c := open_version_unique hA ht hcdb (htl.trans hcl.symm) hto hco
          rw [htc, closeOne_of_find_some hco hfind] at hxo
          cases hxo
        exact ⟨mkOpenV i, List.mem_append_right _ (mem_insertedRows.2 ⟨i, hiD, hguard, rfl⟩),
          rfl, rfl, Or.inl rfl⟩
      · -- out-of-order delta: the open version survives untouched
        rw [applySCD2_of_not_empty hne]
        have hcfix : closeOne (stg_delta inc db) c = c := by
          refine closeOne_of_find_none (List.find?_eq_none.2 ?_)
          intro d hd hm
          rw [closeMatch, decide_eq_true_eq] at hm
          have hdi : d = i := List.inj_on_of_nodup_map hN ((mem_stg_delta.1 hd).1) hi
            (by rw [hm.1, hcl])
          rw [hdi] at hm
          exact hle hm.2
        refine ⟨closeOne (stg_delta inc db) c,
          List.mem_append_left _ (mem_closeStep.2 ⟨c, hcdb, rfl⟩), ?_, ?_, Or.inr ⟨?_, ?_, ?_⟩⟩
        · rw [hcfix]
          exact hcl
        · rw [hcfix]
          exact hco
        · rw [hcfix]
          exact hcdb
        · rw [hcfix]
          exact hdist
        · rw [hcfix]
          omega
    · -- identical fact: no delta for this listing, the open version survives
      have hfacts : c.fact = i.fact :=
        factDistinct_eq_false_iff.1 (Bool.eq_false_iff.2 hdist)
      have hnid : i ∉ stg_delta inc db := by
        intro hmem
        rcases (mem_stg_delta.1 hmem).2 with h | ⟨c2, hc2, hd2⟩
        · rw [h] at hc
          cases hc
        · rcases mem_opensFor.1 hc2 with ⟨hc2db, hc2l, hc2o⟩
          have : c2 = c := open_version_unique hA hc2db hcdb (hc2l.trans hcl.symm) hc2o hco
          rw [this] at hd2
          exact hdist hd2
      have hcfix : closeOne (stg_delta inc db) c = c := by
        refine closeOne_of_find_none (List.find?_eq_none.2 ?_)
        intro d hd hm
        rw [closeMatch, decide_eq_true_eq] at hm
        have hdi : d = i := List.inj_on_of_nodup_map hN ((mem_stg_delta.1 hd).1) hi
          (by rw [hm.1, hcl])
        rw [hdi] at hd
        exact hnid hd
      by_cases hne : (stg_delta inc db).isEmpty
      · rw [applySCD2_of_empty hne]
        exact ⟨c, hcdb, hcl, hco, Or.inl hfacts⟩
      · rw [applySCD2_of_not_empty hne]
        refine ⟨closeOne (stg_delta inc db) c,
          List.mem_append_left _ (mem_closeStep.2 ⟨c, hcdb, rfl⟩), ?_, ?_, Or.inl ?_⟩
        · rw [hcfix]
          exact hcl
        · rw [hcfix]
          exact hco
        · rw [hcfix]
          exact hfacts


lemma forall2_mem_right {α β : Type} {R : α → β → Prop} {l1 : List α} {l2 : List β}
    (h : List.Forall₂ R l1 l2) {b : β} (hb : b ∈ l2) : ∃ a ∈ l1, R a b := by
  induction h with
  | nil => cases hb
  | cons hab htail ih =>
    rcases List.mem_cons.1 hb with rfl | hb2
    · exact ⟨_, List.mem_cons_self _ _, hab⟩
    · rcases ih hb2 with ⟨a, ha, hR⟩
      exact ⟨a, List.mem_cons_of_mem _ ha, hR⟩

lemma applySCD2_second_run {inc1 inc2 : List Incoming} {db : List Version} {now1 : Nat}
    (hA : atMostOneOpen db)
    (hN : (inc1.map Incoming.listing_id).Nodup)
    (hopen : ∀ v ∈ db, v.valid_to = none → v.valid_from ≤ now1)
    (hrel : List.Forall₂ (fun a b : Incoming =>
      a.listing_id = b.listing_id ∧ a.fact = b.fact ∧
      (a.valid_from = b.valid_from ∨ now1 ≤ a.valid_from)) inc1 inc2) :
    closeStep (stg_delta inc2 (applySCD2 inc1 db)) (applySCD2 inc1 db) = applySCD2 inc1 db ∧
    insertedRows (stg_delta inc2 (applySCD2 inc1 db))
      (closeStep (stg_delta inc2 (applySCD2 inc1 db)) (applySCD2 inc1 db)) = [] ∧
    applySCD2 inc2 (applySCD2 inc1 db) = applySCD2 inc1 db := by
  have hA2 : atMostOneOpen (applySCD2 inc1 db) := atMostOneOpen_applySCD2 hA hN
  have hcloseid : ∀ t ∈ applySCD2 inc1 db,
      closeOne (stg_delta inc2 (applySCD2 inc1 db)) t = t := by
    intro t ht
    by_cases hto : t.valid_to = none
    · refine closeOne_of_find_none (List.find?_eq_none.2 ?_)
      intro d hd hm
      rw [closeMatch, decide_eq_true_eq] at hm
      rcases mem_stg_delta.1 hd with ⟨hd2, hcase⟩
      rcases hcase with hno | ⟨c2, hc2, hdist2⟩
      · rw [opensFor_eq_nil] at hno
        exact hno t ht ⟨hm.1.symm, hto⟩
      · rcases mem_opensFor.1 hc2 with ⟨hc2db, hc2l, hc2o⟩
        have hc2t : c2 = t := open_version_unique hA2 hc2db ht (by rw [hc2l, hm.1]) hc2o hto
        rw [hc2t] at hdist2
        rcases forall2_mem_right hrel hd2 with ⟨i1, hi1, hRl, hRf, hRv⟩
        rcases applySCD2_open_after hA hN hi1 with ⟨o, hodb2, hol, hoo, hcaseo⟩
        have hot : o = t := open_version_unique hA2 hodb2 ht (by rw [hol, hRl, hm.1]) hoo hto
        rcases hcaseo with hof | ⟨hodb, hdisto, hlto⟩
        · rw [hot] at hof
          rw [hof, hRf] at hdist2
          rw [factDistinct_self] at hdist2
          cases hdist2
        · rw [hot] at hodb hlto
          rcases hRv with heq | hge
          · omega
          · have hoopen : t.valid_to = none := hto
            have htb := hopen t hodb hoopen
            omega
    · exact closeOne_closed hto
  have h1 : closeStep (stg_delta inc2 (applySCD2 inc1 db)) (applySCD2 inc1 db) =
      applySCD2 inc1 db := by
    unfold closeStep
    have := List.map_congr_left (l := applySCD2 inc1 db)
      (f := closeOne (stg_delta inc2 (applySCD2 inc1 db))) (g := id) hcloseid
    rw [this, List.map_id]
  have h2 : insertedRows (stg_delta inc2 (applySCD2 inc1 db))
      (closeStep (stg_delta inc2 (applySCD2 inc1 db)) (applySCD2 inc1 db)) = [] := by
    rw [h1]
    unfold insertedRows
    have hfil : (stg_delta inc2 (applySCD2 inc1 db)).filter (fun d =>
        !((applySCD2 inc1 db).any (fun t =>
          decide (t.listing_id = d.listing_id ∧ t.valid_to = none)))) = [] := by
      refine List.filter_eq_nil_iff.2 ?_
      intro d hd
      rcases mem_stg_delta.1 hd with ⟨hd2, _⟩
      rcases forall2_mem_right hrel hd2 with ⟨i1, hi1, hRl, _, _⟩
      rcases applySCD2_open_after hA hN hi1 with ⟨o, hodb2, hol, hoo, _⟩
      have hany : (applySCD2 inc1 db).any (fun t =>
          decide (t.listing_id = d.listing_id ∧ t.valid_to = none)) = true :=
        List.any_eq_true.2 ⟨o, hodb2, decide_eq_true ⟨by rw [hol, hRl], hoo⟩⟩
      rw [hany]
      intro hcontra
      cases hcontra
    rw [hfil]
    rfl
  refine ⟨h1, h2, ?_⟩
  by_cases he : (stg_delta inc2 (applySCD2 inc1 db)).isEmpty
  · exact applySCD2_of_empty he
  · rw [applySCD2_of_not_empty he, h1]
    rw [h1] at h2
    rw [h2, List.append_nil]


lemma forall2_map_const {α β γ : Type} {R : β → γ → Prop} (l : List α) {a : β} {b : γ}
    (h : R a b) : List.Forall₂ R (l.map (fun _ => a)) (l.map (fun _ => b)) := by
  induction l with
  | nil => exact List.Forall₂.nil
  | cons x xs ih => exact List.Forall₂.cons h ih

lemma build_incoming_rel (batch : List Row) (now1 now2 : Nat) (ls : List Listing) :
    List.Forall₂ (fun a b : Incoming =>
      a.listing_id = b.listing_id ∧ a.fact = b.fact ∧
      (a.valid_from = b.valid_from ∨ now1 ≤ a.valid_from))
      (build_incoming batch now1 ls) (build_incoming batch now2 ls) := by
  induction batch with
  | nil => exact List.Forall₂.nil
  | cons r t ih =>
    unfold build_incoming
    rw [List.flatMap_cons, List.flatMap_cons]
    refine List.rel_append ?_ ih
    by_cases hb : btrim r.listing_id = ""
    · rw [if_pos hb, if_pos hb]
      exact List.Forall₂.nil
    · rw [if_neg hb, if_neg hb]
      refine forall2_map_const _ ⟨rfl, rfl, ?_⟩
      show effectiveFrom r now1 = effectiveFrom r now2 ∨ now1 ≤ effectiveFrom r now1
      unfold effectiveFrom
      rcases hc : r.change_date with _ | t2
      · rcases hs : r.start_date with _ | t3
        · right
          exact le_refl now1
        · left
          rfl
      · left
        rfl

lemma upsert_dimensions_idem (batch : List Row) (u : LState)
    (t0 i0 : List String) (is0 : List (String × String))
    (htts : u.tts = insertNew (ttCodes batch) t0)
    (hits : u.its = insertNew (itCodes batch) i0)
    (hists : u.ists = insertNew (istPairs batch (insertNew (itCodes batch) i0)) is0) :
    upsert_dimensions batch u = u := by
  unfold upsert_dimensions
  have e1 : insertNew (ttCodes batch) u.tts = u.tts := by
    rw [htts]
    exact insertNew_of_forall_mem (fun x hx => mem_insertNew hx)
  have e2 : insertNew (itCodes batch) u.its = u.its := by
    rw [hits]
    exact insertNew_of_forall_mem (fun x hx => mem_insertNew hx)
  have e3 : insertNew (istPairs batch u.its) u.ists = u.ists := by
    rw [hits, hists]
    exact insertNew_of_forall_mem (fun x hx => mem_insertNew hx)
  rw [e1, e2, e3]

lemma upsert_cities_idem (batch : List Row) (u : LState)
    (c0 z0 : List String) (l0 : List (String × String))
    (hc : u.cities = insertNew (cityCodes batch) c0)
    (hz : u.zips = insertNew (zipCodes batch) z0)
    (hl : u.locs = insertNew (locPairs batch (insertNew (cityCodes batch) c0)
      (insertNew (zipCodes batch) z0)) l0) :
    upsert_cities_zipcodes_locations batch u = u := by
  unfold upsert_cities_zipcodes_locations
  have e1 : insertNew (cityCodes batch) u.cities = u.cities := by
    rw [hc]
    exact insertNew_of_forall_mem (fun x hx => mem_insertNew hx)
  have e2 : insertNew (zipCodes batch) u.zips = u.zips := by
    rw [hz]
    exact insertNew_of_forall_mem (fun x hx => mem_insertNew hx)
  have e3 : insertNew (locPairs batch u.cities u.zips) u.locs = u.locs := by
    rw [hc, hz, hl]
    exact insertNew_of_forall_mem (fun x hx => mem_insertNew hx)
  rw [e1, e2, e3]

lemma upsert_listings_idem (batch : List Row) (u : LState)
    (hcnt : ∀ k, countKey Listing.ext_id (batch.filterMap (resolveRow u)) k ≤ 1)
    (hlst : ∃ t0, u.listings = upsertByKey Listing.ext_id
      (batch.filterMap (resolveRow u)) t0) :
    upsert_listings batch u = u := by
  unfold upsert_listings
  rcases hlst with ⟨t0, ht0⟩
  have h1 : upsertByKey Listing.ext_id (batch.filterMap (resolveRow u)) u.listings =
      u.listings := by
    rw [ht0]
    exact upsertByKey_idempotent hcnt
  rw [h1]

lemma descPick_countKey (batch : List Row) (k : String) :
    countKey Prod.fst (descPick batch) k ≤ 1 :=
  (keepBest_props Prod.fst longerDesc
    (fun x e : String × String => x.2.length ≤ e.2.length)
    (fun e r h => le_of_lt (of_decide_eq_true h))
    (fun e r h => le_of_not_lt (of_decide_eq_false h))
    (fun a b c h1 h2 => le_trans h1 h2) (descSrc batch)).1 k

lemma upsert_descriptions_idem (batch : List Row) (u : LState)
    (hdesc : ∃ t0, u.descs = upsertByKey Prod.fst (descJoined batch u) t0) :
    upsert_descriptions batch u = u := by
  unfold upsert_descriptions
  rcases hdesc with ⟨t0, ht0⟩
  have hcnt : ∀ k, countKey Prod.fst (descJoined batch u) k ≤ 1 := fun k =>
    le_trans (countKey_sublist_le _ (List.filter_sublist _) k) (descPick_countKey batch k)
  have h1 : upsertByKey Prod.fst (descJoined batch u) u.descs = u.descs := by
    rw [ht0]
    exact upsertByKey_idempotent hcnt
  rw [h1]


/-- Claim C2: re-running the pipeline on the same cleaned batch is idempotent:
the second run stages the same incoming rows, finds no delta for rows whose
effective timestamp comes from the data, closes nothing, inserts nothing, and
leaves every table of the state exactly as the first run left it - provided
the batch carries at most one row per trimmed business key, the listing table
is key-unique, the history has at most one open version per listing, and no
open version is dated after the first run's load time. -/
theorem load_idempotent (batch : List Row) (now1 now2 : Nat) (s : LState)
    (hkeys : (batch.map (fun r => btrim r.listing_id)).Nodup)
    (hls : ∀ k, countKey Listing.ext_id s.listings k ≤ 1)
    (hA : atMostOneOpen s.versions)
    (hnow : ∀ v ∈ s.versions, v.valid_to = none → v.valid_from ≤ now1) :
    runLoad batch now2 (runLoad batch now1 s) = runLoad batch now1 s ∧
    insertedRows
      (stg_delta (build_incoming batch now2 (runLoad batch now1 s).listings)
        (runLoad batch now1 s).versions)
      (closeStep (stg_delta (build_incoming batch now2 (runLoad batch now1 s).listings)
        (runLoad batch now1 s).versions) (runLoad batch now1 s).versions) = [] ∧
    closeStep (stg_delta (build_incoming batch now2 (runLoad batch now1 s).listings)
      (runLoad batch now1 s).versions) (runLoad batch now1 s).versions =
      (runLoad batch now1 s).versions := by
  have hbatch : ∀ k, countKey (fun r => btrim r.listing_id) batch k ≤ 1 :=
    nodup_map_countKey_le_one hkeys
  have h1 : upsert_dimensions batch (runLoad batch now1 s) = runLoad batch now1 s :=
    upsert_dimensions_idem batch (runLoad batch now1 s) s.tts s.its s.ists rfl rfl rfl
  have h2 : upsert_cities_zipcodes_locations batch (runLoad batch now1 s) =
      runLoad batch now1 s :=
    upsert_cities_idem batch (runLoad batch now1 s) s.cities s.zips s.locs rfl rfl rfl
  have hcntX : ∀ k, countKey Listing.ext_id
      (batch.filterMap (resolveRow (runLoad batch now1 s))) k ≤ 1 := fun k =>
    le_trans (countKey_filterMap_le (fun a b hb => resolveRow_ext_id hb) batch k) (hbatch k)
  have h3 : upsert_listings batch (runLoad batch now1 s) = runLoad batch now1 s := by
    refine upsert_listings_idem batch (runLoad batch now1 s) hcntX
      ⟨(upsert_cities_zipcodes_locations batch (upsert_dimensions batch s)).listings, ?_⟩
    rfl
  have h4 : upsert_descriptions batch (runLoad batch now1 s) = runLoad batch now1 s := by
    refine upsert_descriptions_idem batch (runLoad batch now1 s)
      ⟨(upsert_listings batch (upsert_cities_zipcodes_locations batch
        (upsert_dimensions batch s))).descs, ?_⟩
    rfl
  have hlsX : ∀ k, countKey Listing.ext_id (runLoad batch now1 s).listings k ≤ 1 := by
    intro k
    have hlshape : (runLoad batch now1 s).listings = upsertByKey Listing.ext_id
        (batch.filterMap (resolveRow (runLoad batch now1 s))) s.listings := rfl
    rw [hlshape]
    exact countKey_upsertByKey_le_one hls hcntX k
  have hN1 : ((build_incoming batch now1 (runLoad batch now1 s).listings).map
      Incoming.listing_id).Nodup :=
    nodup_map_of_countKey_le_one (fun k =>
      le_trans (countKey_build_incoming hlsX k) (hbatch k))
  have h5 := applySCD2_second_run
    hA hN1 hnow (build_incoming_rel batch now1 now2 (runLoad batch now1 s).listings)
  have hv : applySCD2 (build_incoming batch now2 (runLoad batch now1 s).listings)
      (runLoad batch now1 s).versions = (runLoad batch now1 s).versions := h5.2.2
  refine ⟨?_, h5.2.1, h5.1⟩
  have hassm : runLoad batch now2 (runLoad batch now1 s) =
      { upsert_descriptions batch (upsert_listings batch
          (upsert_cities_zipcodes_locations batch
            (upsert_dimensions batch (runLoad batch now1 s)))) with
        versions := applySCD2 (build_incoming batch now2
          (upsert_descriptions batch (upsert_listings batch
            (upsert_cities_zipcodes_locations batch
              (upsert_dimensions batch (runLoad batch now1 s))))).listings)
          (upsert_descriptions batch (upsert_listings batch
            (upsert_cities_zipcodes_locations batch
              (upsert_dimensions batch (runLoad batch now1 s))))).versions } := rfl
  rw [hassm, h1, h2, h3, h4, hv]


/-- A staged row whose temporal markers are both blank: its effective timestamp
falls back to `NOW()`. -/
def c2row : Row :=
  { listing_id := "A", transaction_type := "", item_type := "", item_subtype := ""
    start_date := none, change_date := none
    price := "", area := "", site_area := "", floor := "", room_count := ""
    balcony_count := "", terrace_count := "", terrace_area := "", build_year := ""
    is_new_construction := "", has_passenger_lift := "", has_cellar := ""
    is_furnished := "", city := "", zipcode := "", description_fr := "" }

/-- A store holding listing `A` with one open version dated in the future
(valid_from 100) whose fact differs from what `c2row` stages. -/
def c2state : LState :=
  { tts := [], its := [], ists := [], cities := [], zips := [], locs := []
    listings := [{ ext_id := "A", tt_code := "", it_code := "", ist_code := ""
                   city := "", zip := "", build_year := none, is_new := none
                   has_lift := none, has_cellar := none, is_furn := none }]
    descs := []
    versions := [{ listing_id := "A", valid_from := 100, valid_to := none
                   fact := { price := none, area := none, site_area := none
                             floor := some 1, room_count := none, balcony_count := none
                             terrace_count := none, terrace_area := none }
                   source_change_ts := none }] }

/-- The `c2row` staging row with a change timestamp, so its effective
timestamp is data-driven instead of falling back to `NOW()`. -/
def c2wrow : Row :=
  { c2row with change_date := some 150 }

/-- Re-running the same batch is not idempotent in general: when a row's
effective timestamp falls back to `NOW()` and the stored open version is dated
later than the first run's clock, the first run changes nothing (the close
guard `valid_from <= delta.valid_from` fails and the insert guard still sees
the open version) while a second run at a later clock closes the version and
inserts a new one - the version table grows from 1 to 2 rows. -/
theorem load_idempotence_counterexample :
    (runLoad [c2row] 50 c2state).versions.length = 1 ∧
    (runLoad [c2row] 200 (runLoad [c2row] 50 c2state)).versions.length = 2 ∧
    runLoad [c2row] 200 (runLoad [c2row] 50 c2state) ≠ runLoad [c2row] 50 c2state := by
  refine ⟨?_, ?_, ?_⟩ <;> decide

/-- C2 witness: a change-dated row against a store holding one older open
version with a different fact.  The first run genuinely changes state (it
closes the old version at 150 and opens a new one, 2 version rows), and a
second run at a later clock is exactly the identity. -/
theorem load_idempotent_witness :
    runLoad [c2wrow] 500 (runLoad [c2wrow] 200 c2state) =
      runLoad [c2wrow] 200 c2state ∧
    (runLoad [c2wrow] 200 c2state).versions.length = 2 ∧
    c2state.versions.length = 1 :=
  ⟨(load_idempotent [c2wrow] 200 500 c2state (by decide)
      (fun k => le_trans (countKey_le_length Listing.ext_id c2state.listings k) (by decide))
      (by decide) (by decide)).1,
   by decide, by decide⟩

end ListingLoad
